import Mathlib

/-!
Verification of the migration-audit backend's URL tooling.

This file shallowly embeds the JavaScript source of the repository:
`sitemapParser.js` (`parseSitemap`, `normalizeUrl`),
`urlComparisonService.js` (`compareUrls`, `findSimilarUrl`,
`calculateSimilarity`, `levenshteinDistance`),
`statusChecker.js` (`checkMultipleUrls` retry loop, `categorizeResults`) and
`seoComparisonService.js` (`compareTitles`, `compareDescriptions`).

Modelling conventions:
* JavaScript numbers are modelled as exact rationals (`ℚ`); the string
  lengths occurring in this code base are far below the range where IEEE
  doubles diverge from exact arithmetic on the comparisons performed.
* JavaScript strings are Lean `String`s (the inputs are ASCII URLs and
  metadata, where UTF-16 `length`/`charAt` agree with `String.data`).
* The WHATWG `new URL` constructor used by the source is modelled by
  `parseURLChars` for hierarchical special-scheme URLs
  (http/https/ws/wss/ftp): scheme, optional userinfo, host, optional
  numeric port, path, query, fragment.  Percent-encoding, IDNA, IPv6
  hosts, `file:` URLs and dot-segment normalization are outside the
  model; inputs outside the model count as parse failures (in the
  source a parse failure raises and is caught).
* `Number.prototype.toFixed(2)` and `Math.round` round half away from
  zero for the non-negative values occurring here; both are modelled by
  `jsRound` / `jsToFixed2`.
-/

set_option maxRecDepth 4000

/-- Result of the WHATWG `new URL` constructor, restricted to the fields
the source reads (`protocol`, `hostname`, `port`, `pathname`).  Character
lists are used instead of `String`s to ease reasoning; the boundary
functions convert. -/
structure JsUrl where
  protocol : List Char
  hostname : List Char
  port : Option Nat
  pathname : List Char
deriving Repr, DecidableEq

/-- Special schemes of the WHATWG URL standard handled by the model
(`file:` is excluded: the source never constructs `file:` URLs). -/
def specialSchemes : List (List Char) :=
  [['h','t','t','p'], ['h','t','t','p','s'], ['w','s'], ['w','s','s'], ['f','t','p']]

/-- Characters the model accepts inside a host name: ASCII letters and
digits, `.` (46), `-` (45) and `_` (95). -/
def isHostChar (c : Char) : Bool :=
  (65 ≤ c.toNat && c.toNat ≤ 90) || (97 ≤ c.toNat && c.toNat ≤ 122)
    || (48 ≤ c.toNat && c.toNat ≤ 57) || c.toNat = 46 || c.toNat = 45 || c.toNat = 95

/-- Characters terminating the authority component of a special URL. -/
def isAuthorityEnd (c : Char) : Bool :=
  c = '/' || c = '\\' || c = '?' || c = '#'

/-- Digit list to number (for the port). -/
def digitsToNat (ds : List Char) : Nat :=
  ds.foldl (fun n c => n * 10 + (c.toNat - '0'.toNat)) 0

/-- WHATWG host/port parsing: split at the first `:`, validate the port
digits (≤ 65535), require a non-empty host of accepted characters, and
lowercase the host. -/
def parseHostPort (hostport : List Char) : Option (List Char × Option Nat) :=
  let host := hostport.takeWhile (· ≠ ':')
  let portPart := hostport.dropWhile (· ≠ ':')
  let port? : Option (Option Nat) :=
    match portPart with
    | [] => some none
    | _ :: ds =>
      if ds = [] then some none
      else if ds.all Char.isDigit then
        if digitsToNat ds ≤ 65535 then some (some (digitsToNat ds)) else none
      else none
  match port? with
  | none => none
  | some port =>
    if host = [] then none
    else if host.all isHostChar then some (host.map Char.toLower, port)
    else none

/-- WHATWG authority parsing: the host-port part is whatever follows the
last `@` (anything before it is userinfo, which the source never reads). -/
def dropUserinfo (auth : List Char) : List Char :=
  if '@' ∈ auth then (auth.reverse.takeWhile (· ≠ '@')).reverse else auth

/-- Model of the WHATWG `new URL` constructor on a character list: scheme
up to the first `:` (must be a special scheme), then any number of `/` or
`\` (WHATWG "special authority ignore slashes"), then the authority up to
`/`, `\`, `?` or `#`, then the path up to `?` or `#`; query and fragment
are parsed off and discarded (the record does not retain them).  Returns
`none` where `new URL` throws or the input leaves the modelled fragment. -/
def parseURLChars (cs : List Char) : Option JsUrl :=
  let schemeChars := cs.takeWhile (· ≠ ':')
  match cs.dropWhile (· ≠ ':') with
  | [] => none
  | _ :: afterColon =>
    let scheme := schemeChars.map Char.toLower
    if scheme ∈ specialSchemes then
      let rest := afterColon.dropWhile (fun c => c = '/' || c = '\\')
      let auth := rest.takeWhile (fun c => !isAuthorityEnd c)
      let rem := rest.dropWhile (fun c => !isAuthorityEnd c)
      match parseHostPort (dropUserinfo auth) with
      | none => none
      | some (host, port) =>
        let pathChars := rem.takeWhile (fun c => c ≠ '?' && c ≠ '#')
        let pathname :=
          if pathChars = [] then ['/']
          else pathChars.map (fun c => if c = '\\' then '/' else c)
        some { protocol := scheme ++ [':'], hostname := host, port := port,
               pathname := pathname }
    else none

/-- `pathname.endsWith('/') && pathname.length > 1 → pathname.slice(0, -1)`
from `normalizeUrl`. -/
def jsTrimTrailingSlash (p : List Char) : List Char :=
  if p.getLast? = some '/' && p.length > 1 then p.dropLast else p

/-- `hostname.replace(/^www\./, '')` from `normalizeUrl`: a single leading
`www.` is removed. -/
def jsStripWww (h : List Char) : List Char :=
  match h with
  | 'w' :: 'w' :: 'w' :: '.' :: rest => rest
  | _ => h

/-- `normalizeUrl` from `sitemapParser.js`: parse the URL (returning the
input unchanged on failure), drop one trailing slash from the path
(unless the path is exactly `/`), drop one leading `www.` from the host,
and rebuild from protocol, host and path (losing port, query, fragment,
userinfo). -/
def normalizeUrl (url : String) : String :=
  match parseURLChars url.data with
  | none => url
  | some u =>
    String.mk (u.protocol ++ ['/', '/'] ++ jsStripWww u.hostname ++
      jsTrimTrailingSlash u.pathname)

/-- Inner cells of one row of the Levenshtein dynamic-programming matrix
from `levenshteinDistance`: `prev` is the previous row aligned with the
characters of the first string, `left` is the entry just written in the
current row. -/
def levCells (c2 : Char) : List Char → List Nat → Nat → List Nat
  | c1 :: cs1, pDiag :: pUp :: ps, left =>
    let v := if c2 = c1 then pDiag else Nat.min pDiag (Nat.min left pUp) + 1
    v :: levCells c2 cs1 (pUp :: ps) v
  | _, _, _ => []

/-- One full row of the matrix: the row for character `c2` of the second
string starts with the row index (previous first entry plus one). -/
def levRow (c2 : Char) (cs1 : List Char) (prev : List Nat) : List Nat :=
  match prev with
  | [] => []
  | p0 :: _ => (p0 + 1) :: levCells c2 cs1 prev (p0 + 1)

/-- `levenshteinDistance` from `urlComparisonService.js` (textually
identical code also appears in `seoComparisonService.js`): row-by-row
dynamic programming; the answer is `matrix[str2.length][str1.length]`,
the last entry of the final row. -/
def levenshteinDistance (str1 str2 : String) : Nat :=
  let cs1 := str1.data
  let row0 := List.range (cs1.length + 1)
  ((str2.data.foldl (fun prev c2 => levRow c2 cs1 prev) row0).getLast?).getD 0

example : levenshteinDistance "kitten" "sitting" = 3 := by decide
example : levenshteinDistance "" "abc" = 3 := by decide
example : levenshteinDistance "abc" "" = 3 := by decide
example : levenshteinDistance "flaw" "lawn" = 2 := by decide

/-- `calculateSimilarity` from `urlComparisonService.js`:
`(longer.length − edit(longer, shorter)) / longer.length`, and `1.0` when
the longer string is empty. -/
def calculateSimilarity (str1 str2 : String) : ℚ :=
  let longer := if str1.length > str2.length then str1 else str2
  let shorter := if str1.length > str2.length then str2 else str1
  if longer.length = 0 then 1
  else ((longer.length : ℚ) - levenshteinDistance longer shorter) / longer.length

example : calculateSimilarity "/page1" "/page2" = 5 / 6 := by with_unfolding_all decide
example : calculateSimilarity "" "" = 1 := by with_unfolding_all decide

/-- Loop body of `findSimilarUrl`: the state is
`(maxSimilarity, mostSimilar)`; a parseable candidate whose path
similarity strictly exceeds both the running maximum and `0.5` replaces
the state, any other candidate leaves it unchanged. -/
def findSimilarStep (t : JsUrl) (acc : ℚ × Option String) (candidateUrl : String) :
    ℚ × Option String :=
  match parseURLChars candidateUrl.data with
  | none => acc
  | some cu =>
    let similarity := calculateSimilarity (String.mk t.pathname) (String.mk cu.pathname)
    if similarity > acc.1 && similarity > (1 : ℚ) / 2 then (similarity, some candidateUrl)
    else acc

/-- `findSimilarUrl` from `urlComparisonService.js`: parse the target URL
(`null` on failure), then scan the candidates with `findSimilarStep`
starting from `(0, null)`; unparseable candidates are skipped. -/
def findSimilarUrl (targetUrl : String) (candidateUrls : List String) : Option String :=
  if candidateUrls.length = 0 then none
  else
    match parseURLChars targetUrl.data with
    | none => none
    | some t => (candidateUrls.foldl (findSimilarStep t) ((0 : ℚ), none)).2

example : findSimilarUrl "http://old.com/page1" ["http://new.com/page2"] =
    some "http://new.com/page2" := by with_unfolding_all decide
example : findSimilarUrl "http://old.com/page1" ["http://new.com/other-completely"] =
    none := by with_unfolding_all decide

/-- A JavaScript `Map` over strings, modelled as its entry list in
iteration order: keys are unique, a key sits at the position of its first
insertion, and its value is the most recently set one. -/
def jsMapInsert (m : List (String × String)) (k v : String) : List (String × String) :=
  if m.any (fun p => p.1 = k) then
    m.map (fun p => if p.1 = k then (k, v) else p)
  else m ++ [(k, v)]

/-- `new Map(pairs)`: insert the pairs left to right. -/
def jsMapOfPairs (ps : List (String × String)) : List (String × String) :=
  ps.foldl (fun m p => jsMapInsert m p.1 p.2) []

/-- A JavaScript `Set` over strings as its element list in iteration
order (first occurrence wins). -/
def jsSetOfList (l : List String) : List String :=
  l.foldl (fun acc u => if u ∈ acc then acc else acc ++ [u]) []

/-- `Map.prototype.get`, as `Option`. -/
def jsMapGet (m : List (String × String)) (k : String) : Option String :=
  (m.find? (fun p => p.1 = k)).map (fun p => p.2)

/-- `Math.round`: round half away from zero; the arguments in this code
base are non-negative, where this is `⌊q + 1/2⌋`. -/
def jsRound (q : ℚ) : ℤ := ⌊q + 1 / 2⌋

/-- Numeric value of `Number.prototype.toFixed(2)` (the source stores the
resulting decimal string; its numeric value is modelled). -/
def jsToFixed2 (q : ℚ) : ℚ := (jsRound (q * 100) : ℚ) / 100

/-- An entry of the `matched` or `redirected` bucket of `compareUrls`. -/
structure MatchedEntry where
  oldUrl : String
  newUrl : String
  matchType : String
deriving Repr, DecidableEq

/-- An entry of the `missing` bucket of `compareUrls`. -/
structure MissingEntry where
  oldUrl : String
  suggestion : Option String
deriving Repr, DecidableEq

/-- An entry of the `new` bucket of `compareUrls`. -/
structure NewOnlyEntry where
  newUrl : String
  type : String
deriving Repr, DecidableEq

/-- The `summary` record of `compareUrls`.  `matchRate` holds the numeric
value of the source's `toFixed(2)` percentage string (`0` for an empty
old list). -/
structure UrlSummary where
  totalOldUrls : Nat
  totalNewUrls : Nat
  matchedCount : Nat
  missingCount : Nat
  newCount : Nat
  redirectedCount : Nat
  matchRate : ℚ
deriving Repr, DecidableEq

/-- The result record of `compareUrls` (field `new` as in the source). -/
structure UrlComparison where
  matched : List MatchedEntry
  missing : List MissingEntry
  new : List NewOnlyEntry
  redirected : List MatchedEntry
  summary : UrlSummary
deriving Repr, DecidableEq

/-- Classification of one entry `(normalizedOld, originalOld)` of the
normalized-old map, mirroring the body of the first loop of
`compareUrls`: direct match, else redirect-map match, else missing with a
suggestion from `findSimilarUrl`. -/
def classifyOldEntry (normalizedNewUrls : List String)
    (redirectMap : Option (List (String × String))) (candidates : List String)
    (e : String × String) :
    Option MatchedEntry × Option MatchedEntry × Option MissingEntry :=
  let normalizedOld := e.1
  let originalOld := e.2
  if normalizedOld ∈ normalizedNewUrls then
    (some ⟨originalOld, originalOld, "direct"⟩, none, none)
  else
    match redirectMap with
    | some rm =>
      match jsMapGet rm originalOld with
      | some mappedUrl =>
        if normalizeUrl mappedUrl ∈ normalizedNewUrls then
          (none, some ⟨originalOld, mappedUrl, "mapped"⟩, none)
        else
          (none, none, some ⟨originalOld, findSimilarUrl normalizedOld candidates⟩)
      | none => (none, none, some ⟨originalOld, findSimilarUrl normalizedOld candidates⟩)
    | none => (none, none, some ⟨originalOld, findSimilarUrl normalizedOld candidates⟩)

/-- The first loop of `compareUrls`: fold over the normalized-old map
entries, appending each entry's classification to the `matched`,
`redirected` and `missing` buckets. -/
def compareOldLoop (normalizedNewUrls : List String)
    (redirectMap : Option (List (String × String))) (candidates : List String)
    (entries : List (String × String)) :
    List MatchedEntry × List MatchedEntry × List MissingEntry :=
  entries.foldl (fun acc e =>
    match classifyOldEntry normalizedNewUrls redirectMap candidates e with
    | (some m, _, _) => (acc.1 ++ [m], acc.2.1, acc.2.2)
    | (none, some r, _) => (acc.1, acc.2.1 ++ [r], acc.2.2)
    | (none, none, some mi) => (acc.1, acc.2.1, acc.2.2 ++ [mi])
    | (none, none, none) => acc) ([], [], [])

/-- The second loop of `compareUrls`: a new URL is `new_content` when its
normalization is neither a key of the normalized-old map nor the
normalization of some redirect-map value. -/
def compareNewLoop (normalizedOldUrls : List (String × String))
    (redirectMap : Option (List (String × String))) (newUrls : List String) :
    List NewOnlyEntry :=
  newUrls.foldl (fun acc newUrl =>
    let normalized := normalizeUrl newUrl
    if normalizedOldUrls.any (fun p => p.1 = normalized) then acc
    else
      let isRedirectTarget :=
        match redirectMap with
        | some rm => rm.any (fun p => normalizeUrl p.2 = normalized)
        | none => false
      if isRedirectTarget then acc else acc ++ [⟨newUrl, "new_content"⟩]) []

/-- `compareUrls` from `urlComparisonService.js`: build the normalized
old-URL map and normalized new-URL set, classify each surviving old URL,
collect new-only URLs, and fill in the summary (`matchRate` is the
percentage `((matched + redirected) / totalOld) * 100` to two decimals,
`0` when there are no old URLs). -/
def compareUrls (oldUrls newUrls : List String)
    (redirectMap : Option (List (String × String)) := none) : UrlComparison :=
  let normalizedOldUrls := jsMapOfPairs (oldUrls.map (fun url => (normalizeUrl url, url)))
  let normalizedNewUrls := jsSetOfList (newUrls.map (fun url => normalizeUrl url))
  let (matched, redirected, missing) :=
    compareOldLoop normalizedNewUrls redirectMap normalizedNewUrls normalizedOldUrls
  let newOnly := compareNewLoop normalizedOldUrls redirectMap newUrls
  { matched := matched
    missing := missing
    new := newOnly
    redirected := redirected
    summary :=
      { totalOldUrls := oldUrls.length
        totalNewUrls := newUrls.length
        matchedCount := matched.length
        missingCount := missing.length
        newCount := newOnly.length
        redirectedCount := redirected.length
        matchRate :=
          if oldUrls.length > 0 then
            jsToFixed2 (((matched.length : ℚ) + redirected.length) / oldUrls.length * 100)
          else 0 } }

example :
    (compareUrls ["https://old.site/legacy"] ["https://new.site/shiny"]
      (some [("https://old.site/legacy", "https://new.site/shiny")])).summary.redirectedCount
      = 1 := by with_unfolding_all decide
example :
    (compareUrls ["https://old.site/legacy"] ["https://new.site/shiny"]
      (some [("https://old.site/legacy", "https://new.site/shiny")])).summary.matchRate
      = 100 := by with_unfolding_all decide

/-- A probe result from `checkUrlStatus`, restricted to the fields read
by the verified functions (`statusCode` is `0` on transport failure,
`responseTime` is a millisecond count). -/
structure ProbeResult where
  url : String
  statusCode : Nat
  responseTime : Nat
deriving Repr, DecidableEq

/-- The retry condition of the loop in `checkMultipleUrls`:
`result.statusCode === 0 || result.statusCode >= 500`. -/
def isRetryable (r : ProbeResult) : Bool :=
  r.statusCode = 0 || r.statusCode ≥ 500

/-- Outcome of the per-URL retry loop of `checkMultipleUrls`: the result
left in `result` when the loop exits, the sequence of inter-attempt sleep
durations in order, and the number of probes issued. -/
structure RetryOutcome where
  result : Option ProbeResult
  sleeps : List Nat
  probes : Nat
deriving Repr, DecidableEq

/-- The `while (attempts < retryAttempts)` retry loop of
`checkMultipleUrls`, with the successive `checkUrlStatus` responses for
this URL supplied by the oracle `probe` (the `attempts`-th probe is
`probe attempts`).  The loop variant `remaining = retryAttempts −
attempts` is the first argument, so `remaining > 0` is the loop guard
`attempts < retryAttempts` and `remaining > 1` is the post-increment
guard `attempts < retryAttempts` before the sleep.  A retryable result
(transport failure or 5xx) increments `attempts` and, when attempts
remain, sleeps `delay * attempts` and continues; any other result breaks
the loop, and exhaustion leaves the last observed result. -/
def retryLoop (probe : Nat → ProbeResult) (delay : Nat) :
    Nat → Nat → RetryOutcome
  | 0, _ => { result := none, sleeps := [], probes := 0 }
  | remaining + 1, attempts =>
    let result := probe attempts
    if isRetryable result then
      if remaining > 0 then
        let rest := retryLoop probe delay remaining (attempts + 1)
        { result := rest.result
          sleeps := delay * (attempts + 1) :: rest.sleeps
          probes := rest.probes + 1 }
      else { result := some result, sleeps := [], probes := 1 }
    else { result := some result, sleeps := [], probes := 1 }

/-- The retry loop as entered by `checkMultipleUrls`: `attempts = 0`,
`remaining = retryAttempts`. -/
def runRetry (probe : Nat → ProbeResult) (retryAttempts delay : Nat) : RetryOutcome :=
  retryLoop probe delay retryAttempts 0

/-- The `summary` record of `categorizeResults`. -/
structure CategorySummary where
  total : Nat
  okCount : Nat
  redirectCount : Nat
  clientErrorCount : Nat
  serverErrorCount : Nat
  networkErrorCount : Nat
  avgResponseTime : ℤ
deriving Repr, DecidableEq

/-- The bucket record of `categorizeResults`. -/
structure Categorized where
  ok : List ProbeResult
  redirects : List ProbeResult
  clientErrors : List ProbeResult
  serverErrors : List ProbeResult
  networkErrors : List ProbeResult
  summary : CategorySummary
deriving Repr, DecidableEq

/-- Loop body of `categorizeResults`: the accumulator carries the
buckets/counts so far and the running response-time total; the
`if`/`else if` chain appends the result to exactly one bucket (`200`
exactly, then `3xx`, then `4xx`, then `≥ 500`, everything else to
`networkErrors`) and bumps the matching count. -/
def categorizeStep (acc : Categorized × Nat) (result : ProbeResult) : Categorized × Nat :=
  let c := acc.1
  let totalResponseTime := acc.2 + result.responseTime
  let c' :=
    if result.statusCode = 200 then
      { c with
          ok := c.ok ++ [result]
          summary := { c.summary with okCount := c.summary.okCount + 1 } }
    else if result.statusCode ≥ 300 && result.statusCode < 400 then
      { c with
          redirects := c.redirects ++ [result]
          summary := { c.summary with redirectCount := c.summary.redirectCount + 1 } }
    else if result.statusCode ≥ 400 && result.statusCode < 500 then
      { c with
          clientErrors := c.clientErrors ++ [result]
          summary := { c.summary with clientErrorCount := c.summary.clientErrorCount + 1 } }
    else if result.statusCode ≥ 500 then
      { c with
          serverErrors := c.serverErrors ++ [result]
          summary := { c.summary with serverErrorCount := c.summary.serverErrorCount + 1 } }
    else
      { c with
          networkErrors := c.networkErrors ++ [result]
          summary := { c.summary with networkErrorCount := c.summary.networkErrorCount + 1 } }
  (c', totalResponseTime)

/-- `categorizeResults` from `statusChecker.js`: one pass of
`categorizeStep` over the results, then the average response time is
`Math.round(total / count)` (`0` for an empty batch). -/
def categorizeResults (results : List ProbeResult) : Categorized :=
  let init : Categorized :=
    { ok := [], redirects := [], clientErrors := [], serverErrors := [], networkErrors := []
      summary :=
        { total := results.length
          okCount := 0
          redirectCount := 0
          clientErrorCount := 0
          serverErrorCount := 0
          networkErrorCount := 0
          avgResponseTime := 0 } }
  let folded := results.foldl categorizeStep (init, 0)
  { folded.1 with summary :=
      { folded.1.summary with avgResponseTime :=
          if results.length > 0 then jsRound ((folded.2 : ℚ) / results.length)
          else 0 } }

/-- A title, description or other metadata field as seen by the SEO
comparison: `none` models JavaScript `undefined`/`null`; JavaScript also
treats the empty string as absent (falsy). -/
def jsFalsyStr : Option String → Bool
  | none => true
  | some s => s = ""

/-- `calculateTextSimilarity` from `seoComparisonService.js` (unlike the
URL-service `calculateSimilarity` it short-circuits falsy inputs to `0`
and equal strings to `1`). -/
def calculateTextSimilarity (str1 str2 : String) : ℚ :=
  if str1 = "" || str2 = "" then 0
  else if str1 = str2 then 1
  else
    let longer := if str1.length > str2.length then str1 else str2
    let shorter := if str1.length > str2.length then str2 else str1
    if longer.length = 0 then 1
    else ((longer.length : ℚ) - levenshteinDistance longer shorter) / longer.length

/-- Result record of `compareTitles` / `compareDescriptions` (source
field name `match`, a reserved word in Lean). -/
structure FieldComparison where
  isMatch : Bool
  similarity : ℚ
  issue : Option String
deriving Repr, DecidableEq

/-- `compareTitles` from `seoComparisonService.js`: both falsy ⇒ trivial
match; exactly one falsy ⇒ mismatch with the corresponding issue;
otherwise case-insensitive similarity with thresholds 0.5/0.8 and the
20-character length-difference issue. -/
def compareTitles (oldTitle newTitle : Option String) : FieldComparison :=
  if jsFalsyStr oldTitle && jsFalsyStr newTitle then
    { isMatch := true, similarity := 1, issue := none }
  else if jsFalsyStr oldTitle then
    { isMatch := false, similarity := 0, issue := some "Old page missing title tag" }
  else if jsFalsyStr newTitle then
    { isMatch := false, similarity := 0, issue := some "New page missing title tag" }
  else
    let o := (oldTitle.getD "").toLower
    let n := (newTitle.getD "").toLower
    let similarity := calculateTextSimilarity o n
    let lengthDiff := ((oldTitle.getD "").length : ℤ) - ((newTitle.getD "").length : ℤ)
    let issue :=
      if similarity < 1 / 2 then some "Title significantly changed"
      else if lengthDiff.natAbs > 20 then some "Title length differs significantly"
      else if similarity < 4 / 5 then some "Title partially changed"
      else none
    { isMatch := similarity ≥ 4 / 5
      similarity := (jsRound (similarity * 100) : ℚ) / 100
      issue := issue }

/-- `compareDescriptions` from `seoComparisonService.js`: identical
structure to `compareTitles` with its own issue strings and the
30-character length threshold. -/
def compareDescriptions (oldDesc newDesc : Option String) : FieldComparison :=
  if jsFalsyStr oldDesc && jsFalsyStr newDesc then
    { isMatch := true, similarity := 1, issue := none }
  else if jsFalsyStr oldDesc then
    { isMatch := false, similarity := 0, issue := some "Old page missing meta description" }
  else if jsFalsyStr newDesc then
    { isMatch := false, similarity := 0, issue := some "New page missing meta description" }
  else
    let o := (oldDesc.getD "").toLower
    let n := (newDesc.getD "").toLower
    let similarity := calculateTextSimilarity o n
    let lengthDiff := ((oldDesc.getD "").length : ℤ) - ((newDesc.getD "").length : ℤ)
    let issue :=
      if similarity < 1 / 2 then some "Description significantly changed"
      else if lengthDiff.natAbs > 30 then some "Description length differs significantly"
      else if similarity < 4 / 5 then some "Description partially changed"
      else none
    { isMatch := similarity ≥ 4 / 5
      similarity := (jsRound (similarity * 100) : ℚ) / 100
      issue := issue }

/-- A `<url>` entry of a sitemap, restricted to the URL (the other
optional fields of the source record play no role in the claims). -/
structure SitemapEntry where
  url : String
deriving Repr, DecidableEq

/-- The parsed XML root `parseSitemap` inspects: a `sitemapindex` with
the `<loc>` values of its nested sitemaps, a `urlset` with its entries,
or neither (invalid format). -/
inductive SitemapDoc where
  | index (locs : List String)
  | urlset (entries : List SitemapEntry)
  | invalid
deriving Repr, DecidableEq

/-- Outcome of a `parseSitemap` call: normal return, thrown error, or
no return at all within the given call-depth budget. -/
inductive ParseOutcome where
  | ok (entries : List SitemapEntry)
  | err
  | diverge
deriving Repr, DecidableEq

/-- `parseSitemap` from `sitemapParser.js`.  The network/file fetch plus
XML parse of a sitemap URL is the oracle `env`; `fuel` bounds the
recursion depth (the source has no bound of its own: each nested sitemap
of an index is parsed by a plain recursive call, errors of nested parses
are caught and skipped, and there is no visited set).  `diverge` means
the call is still recursing when the depth budget runs out — since the
source has no depth cap, an input on which every budget diverges makes
the real code recurse without bound. -/
def parseSitemapModel (env : String → SitemapDoc) : Nat → String → ParseOutcome
  | 0, _ => .diverge
  | fuel + 1, loc =>
    match env loc with
    | .urlset entries => .ok entries
    | .invalid => .err
    | .index locs =>
      locs.foldl (fun acc l =>
        match acc with
        | .diverge => .diverge
        | _ =>
          match parseSitemapModel env fuel l, acc with
          | .diverge, _ => .diverge
          | .err, a => a
          | .ok es, .ok acc' => .ok (acc' ++ es)
          | .ok _, a => a) (.ok [])

/-! ### Helper lemmas about the JavaScript `Map`/`Set` models -/

theorem jsSetOfList_foldl_mem (l : List String) :
    ∀ (acc : List String) (a : String),
      a ∈ l.foldl (fun acc u => if u ∈ acc then acc else acc ++ [u]) acc ↔ a ∈ acc ∨ a ∈ l := by
  induction l with
  | nil => simp
  | cons u l ih =>
    intro acc a
    simp only [List.foldl_cons]
    by_cases hu : u ∈ acc
    · rw [if_pos hu, ih]
      constructor
      · rintro (h | h)
        exacts [Or.inl h, Or.inr (List.mem_cons_of_mem _ h)]
      · rintro (h | h)
        · exact Or.inl h
        · rcases List.mem_cons.mp h with rfl | h
          · exact Or.inl hu
          · exact Or.inr h
    · rw [if_neg hu, ih]
      simp only [List.mem_append, List.mem_cons, List.mem_singleton]
      tauto

theorem jsSetOfList_mem {l : List String} {a : String} :
    a ∈ jsSetOfList l ↔ a ∈ l := by
  rw [jsSetOfList, jsSetOfList_foldl_mem]
  simp

theorem jsMapInsert_mem {m : List (String × String)} {k v : String} {p : String × String}
    (h : p ∈ jsMapInsert m k v) : p ∈ m ∨ p = (k, v) := by
  unfold jsMapInsert at h
  split_ifs at h
  · rcases List.mem_map.mp h with ⟨q, hq, hqe⟩
    by_cases hk : q.1 = k
    · rw [if_pos hk] at hqe
      exact Or.inr hqe.symm
    · rw [if_neg hk] at hqe
      exact Or.inl (hqe ▸ hq)
  · rcases List.mem_append.mp h with h | h
    · exact Or.inl h
    · exact Or.inr (List.mem_singleton.mp h)

theorem jsMapOfPairs_foldl_mem (ps : List (String × String)) :
    ∀ (m : List (String × String)) (p : String × String),
      p ∈ ps.foldl (fun m q => jsMapInsert m q.1 q.2) m → p ∈ m ∨ p ∈ ps := by
  induction ps with
  | nil => simp
  | cons q ps ih =>
    intro m p h
    rcases ih (jsMapInsert m q.1 q.2) p h with h' | h'
    · rcases jsMapInsert_mem h' with h'' | h''
      · exact Or.inl h''
      · exact Or.inr (h'' ▸ List.mem_cons_self q ps)
    · exact Or.inr (List.mem_cons_of_mem _ h')

theorem jsMapOfPairs_mem {ps : List (String × String)} {p : String × String}
    (h : p ∈ jsMapOfPairs ps) : p ∈ ps := by
  rcases jsMapOfPairs_foldl_mem ps [] p h with h' | h'
  · simp at h'
  · exact h'

theorem jsMapInsert_map_fst (m : List (String × String)) (k v : String) :
    (jsMapInsert m k v).map Prod.fst =
      if k ∈ m.map Prod.fst then m.map Prod.fst else m.map Prod.fst ++ [k] := by
  have hcond : (m.any fun p => p.1 = k) = true ↔ k ∈ m.map Prod.fst := by
    simp only [List.any_eq_true, decide_eq_true_eq, List.mem_map]
  unfold jsMapInsert
  by_cases hk : k ∈ m.map Prod.fst
  · rw [if_pos (hcond.mpr hk), if_pos hk, List.map_map]
    refine List.map_congr_left fun p _ => ?_
    by_cases hp : p.1 = k
    · simp [hp]
    · simp [hp]
  · rw [if_neg (fun hc => hk (hcond.mp hc)), if_neg hk, List.map_append]
    rfl

theorem jsMapInsert_keys_nodup {m : List (String × String)} (k v : String)
    (h : (m.map Prod.fst).Nodup) : ((jsMapInsert m k v).map Prod.fst).Nodup := by
  rw [jsMapInsert_map_fst]
  by_cases hk : k ∈ m.map Prod.fst
  · rwa [if_pos hk]
  · rw [if_neg hk]
    simp [List.nodup_append, h, hk]

theorem jsMapInsert_keys_toFinset (m : List (String × String)) (k v : String) :
    ((jsMapInsert m k v).map Prod.fst).toFinset = insert k (m.map Prod.fst).toFinset := by
  rw [jsMapInsert_map_fst]
  by_cases hk : k ∈ m.map Prod.fst
  · rw [if_pos hk, eq_comm, Finset.insert_eq_self]
    exact List.mem_toFinset.mpr hk
  · rw [if_neg hk]
    ext a
    simp [or_comm]

theorem jsMapOfPairs_foldl_keys_toFinset (ps : List (String × String)) :
    ∀ m : List (String × String),
      (((ps.foldl (fun m q => jsMapInsert m q.1 q.2) m).map Prod.fst).toFinset : Finset String)
        = (m.map Prod.fst).toFinset ∪ (ps.map Prod.fst).toFinset := by
  induction ps with
  | nil => simp
  | cons q ps ih =>
    intro m
    rw [List.foldl_cons, ih, jsMapInsert_keys_toFinset]
    ext a
    simp only [Finset.mem_union, Finset.mem_insert, List.map_cons, List.toFinset_cons]
    tauto

theorem jsMapOfPairs_foldl_keys_nodup (ps : List (String × String)) :
    ∀ m : List (String × String), (m.map Prod.fst).Nodup →
      ((ps.foldl (fun m q => jsMapInsert m q.1 q.2) m).map Prod.fst).Nodup := by
  induction ps with
  | nil => exact fun m h => h
  | cons q ps ih => exact fun m h => ih _ (jsMapInsert_keys_nodup q.1 q.2 h)

theorem jsMapOfPairs_length (ps : List (String × String)) :
    (jsMapOfPairs ps).length = (ps.map Prod.fst).toFinset.card := by
  have hnd : ((jsMapOfPairs ps).map Prod.fst).Nodup :=
    jsMapOfPairs_foldl_keys_nodup ps [] (by simp)
  have hlen : (jsMapOfPairs ps).length = ((jsMapOfPairs ps).map Prod.fst).length :=
    (List.length_map _ _).symm
  rw [hlen, ← List.toFinset_card_of_nodup hnd]
  have hts := jsMapOfPairs_foldl_keys_toFinset ps ([] : List (String × String))
  rw [jsMapOfPairs, hts]
  simp

/-- Every entry of the normalized-old map of `compareUrls` pairs the
normalization of a surviving original old URL with that URL. -/
theorem mem_normPairs {oldUrls : List String} {p : String × String}
    (h : p ∈ jsMapOfPairs (oldUrls.map fun u => (normalizeUrl u, u))) :
    p.2 ∈ oldUrls ∧ p.1 = normalizeUrl p.2 := by
  rcases List.mem_map.mp (jsMapOfPairs_mem h) with ⟨u, hu, hp⟩
  rw [← hp]
  exact ⟨hu, rfl⟩

/-! ### The first `compareUrls` loop as bucket-wise `filterMap` -/

/-- First component of `classifyOldEntry` (the `matched` contribution). -/
def oldEntryMatched (nn : List String) (rm : Option (List (String × String)))
    (cands : List String) (e : String × String) : Option MatchedEntry :=
  (classifyOldEntry nn rm cands e).1

/-- Second component of `classifyOldEntry` (the `redirected` contribution). -/
def oldEntryRedirected (nn : List String) (rm : Option (List (String × String)))
    (cands : List String) (e : String × String) : Option MatchedEntry :=
  (classifyOldEntry nn rm cands e).2.1

/-- Third component of `classifyOldEntry` (the `missing` contribution). -/
def oldEntryMissing (nn : List String) (rm : Option (List (String × String)))
    (cands : List String) (e : String × String) : Option MissingEntry :=
  (classifyOldEntry nn rm cands e).2.2

theorem classifyOldEntry_cases (nn : List String) (rm : Option (List (String × String)))
    (cands : List String) (e : String × String) :
    (∃ m, classifyOldEntry nn rm cands e = (some m, none, none)) ∨
    (∃ r, classifyOldEntry nn rm cands e = (none, some r, none)) ∨
    (∃ mi, classifyOldEntry nn rm cands e = (none, none, some mi)) := by
  by_cases h1 : e.1 ∈ nn
  · exact Or.inl ⟨⟨e.2, e.2, "direct"⟩, by simp [classifyOldEntry, h1]⟩
  · cases rm with
    | none =>
      exact Or.inr (Or.inr ⟨⟨e.2, findSimilarUrl e.1 cands⟩, by simp [classifyOldEntry, h1]⟩)
    | some rm' =>
      cases hm : jsMapGet rm' e.2 with
      | none =>
        exact Or.inr (Or.inr ⟨⟨e.2, findSimilarUrl e.1 cands⟩,
          by simp [classifyOldEntry, h1, hm]⟩)
      | some n =>
        by_cases h2 : normalizeUrl n ∈ nn
        · exact Or.inr (Or.inl ⟨⟨e.2, n, "mapped"⟩, by simp [classifyOldEntry, h1, hm, h2]⟩)
        · exact Or.inr (Or.inr ⟨⟨e.2, findSimilarUrl e.1 cands⟩,
            by simp [classifyOldEntry, h1, hm, h2]⟩)

theorem compareOldLoop_foldl (nn : List String) (rm : Option (List (String × String)))
    (cands : List String) (entries : List (String × String)) :
    ∀ acc : List MatchedEntry × List MatchedEntry × List MissingEntry,
      (entries.foldl (fun acc e =>
        match classifyOldEntry nn rm cands e with
        | (some m, _, _) => (acc.1 ++ [m], acc.2.1, acc.2.2)
        | (none, some r, _) => (acc.1, acc.2.1 ++ [r], acc.2.2)
        | (none, none, some mi) => (acc.1, acc.2.1, acc.2.2 ++ [mi])
        | (none, none, none) => acc) acc)
      = (acc.1 ++ entries.filterMap (oldEntryMatched nn rm cands),
         acc.2.1 ++ entries.filterMap (oldEntryRedirected nn rm cands),
         acc.2.2 ++ entries.filterMap (oldEntryMissing nn rm cands)) := by
  induction entries with
  | nil => simp
  | cons e es ih =>
    intro acc
    rcases classifyOldEntry_cases nn rm cands e with ⟨m, he⟩ | ⟨r, he⟩ | ⟨mi, he⟩ <;>
      simp [List.foldl_cons, he, List.filterMap_cons, oldEntryMatched, oldEntryRedirected,
        oldEntryMissing, ih]

theorem compareOldLoop_eq (nn : List String) (rm : Option (List (String × String)))
    (cands : List String) (entries : List (String × String)) :
    compareOldLoop nn rm cands entries =
      (entries.filterMap (oldEntryMatched nn rm cands),
       entries.filterMap (oldEntryRedirected nn rm cands),
       entries.filterMap (oldEntryMissing nn rm cands)) := by
  rw [compareOldLoop, compareOldLoop_foldl]
  simp

theorem oldEntryMatched_oldUrl {nn : List String} {rm : Option (List (String × String))}
    {cands : List String} {e : String × String} {m : MatchedEntry}
    (h : oldEntryMatched nn rm cands e = some m) : m.oldUrl = e.2 := by
  rw [oldEntryMatched] at h
  by_cases h1 : e.1 ∈ nn
  · simp only [classifyOldEntry, if_pos h1, Option.some.injEq] at h
    cases h
    rfl
  · exfalso
    cases rm with
    | none => simp [classifyOldEntry, h1] at h
    | some rm' =>
      cases hm : jsMapGet rm' e.2 with
      | none => simp [classifyOldEntry, h1, hm] at h
      | some n =>
        by_cases h2 : normalizeUrl n ∈ nn <;> simp [classifyOldEntry, h1, hm, h2] at h

theorem oldEntryRedirected_oldUrl {nn : List String} {rm : Option (List (String × String))}
    {cands : List String} {e : String × String} {r : MatchedEntry}
    (h : oldEntryRedirected nn rm cands e = some r) : r.oldUrl = e.2 := by
  rw [oldEntryRedirected] at h
  by_cases h1 : e.1 ∈ nn
  · simp [classifyOldEntry, h1] at h
  · cases rm with
    | none => simp [classifyOldEntry, h1] at h
    | some rm' =>
      cases hm : jsMapGet rm' e.2 with
      | none => simp [classifyOldEntry, h1, hm] at h
      | some n =>
        by_cases h2 : normalizeUrl n ∈ nn
        · simp only [classifyOldEntry, if_neg h1, hm, if_pos h2, Option.some.injEq] at h
          cases h
          rfl
        · simp [classifyOldEntry, h1, hm, h2] at h

theorem oldEntryMissing_spec {nn : List String} {rm : Option (List (String × String))}
    {cands : List String} {e : String × String} {mi : MissingEntry}
    (h : oldEntryMissing nn rm cands e = some mi) :
    mi.oldUrl = e.2 ∧ mi.suggestion = findSimilarUrl e.1 cands := by
  rw [oldEntryMissing] at h
  by_cases h1 : e.1 ∈ nn
  · simp [classifyOldEntry, h1] at h
  · cases rm with
    | none =>
      simp only [classifyOldEntry, if_neg h1, Option.some.injEq] at h
      cases h
      exact ⟨rfl, rfl⟩
    | some rm' =>
      cases hm : jsMapGet rm' e.2 with
      | none =>
        simp only [classifyOldEntry, if_neg h1, hm, Option.some.injEq] at h
        cases h
        exact ⟨rfl, rfl⟩
      | some n =>
        by_cases h2 : normalizeUrl n ∈ nn
        · simp [classifyOldEntry, h1, hm, h2] at h
        · simp only [classifyOldEntry, if_neg h1, hm, if_neg h2, Option.some.injEq] at h
          cases h
          exact ⟨rfl, rfl⟩

theorem oldEntryRedirected_of {nn : List String} {rm' : List (String × String)}
    {cands : List String} {e : String × String} {n : String}
    (h1 : e.1 ∉ nn) (hm : jsMapGet rm' e.2 = some n) (h2 : normalizeUrl n ∈ nn) :
    oldEntryRedirected nn (some rm') cands e = some ⟨e.2, n, "mapped"⟩ := by
  simp [oldEntryRedirected, classifyOldEntry, h1, hm, h2]

theorem classify_filterMap_length (nn : List String) (rm : Option (List (String × String)))
    (cands : List String) (entries : List (String × String)) :
    (entries.filterMap (oldEntryMatched nn rm cands)).length
      + (entries.filterMap (oldEntryRedirected nn rm cands)).length
      + (entries.filterMap (oldEntryMissing nn rm cands)).length = entries.length := by
  induction entries with
  | nil => simp
  | cons e es ih =>
    rcases classifyOldEntry_cases nn rm cands e with ⟨m, he⟩ | ⟨r, he⟩ | ⟨mi, he⟩ <;>
    · simp only [List.filterMap_cons, oldEntryMatched, oldEntryRedirected, oldEntryMissing,
        he, List.length_cons]
      omega

/-- The three old-URL buckets of `compareUrls` are the bucket-wise
`filterMap` of the classification over the normalized-old map. -/
theorem compareUrls_buckets (oldUrls newUrls : List String)
    (rm : Option (List (String × String))) :
    (compareUrls oldUrls newUrls rm).matched
        = (jsMapOfPairs (oldUrls.map fun u => (normalizeUrl u, u))).filterMap
            (oldEntryMatched (jsSetOfList (newUrls.map fun u => normalizeUrl u)) rm
              (jsSetOfList (newUrls.map fun u => normalizeUrl u)))
      ∧ (compareUrls oldUrls newUrls rm).redirected
        = (jsMapOfPairs (oldUrls.map fun u => (normalizeUrl u, u))).filterMap
            (oldEntryRedirected (jsSetOfList (newUrls.map fun u => normalizeUrl u)) rm
              (jsSetOfList (newUrls.map fun u => normalizeUrl u)))
      ∧ (compareUrls oldUrls newUrls rm).missing
        = (jsMapOfPairs (oldUrls.map fun u => (normalizeUrl u, u))).filterMap
            (oldEntryMissing (jsSetOfList (newUrls.map fun u => normalizeUrl u)) rm
              (jsSetOfList (newUrls.map fun u => normalizeUrl u))) := by
  simp [compareUrls, compareOldLoop_eq]

/-- C1 — Corrected.  The three old-URL buckets of `compareUrls` together
hold one entry per *distinct normalization* of the old URLs (not per old
URL: the normalized-old map collapses old URLs that normalize alike),
and every entry's `oldUrl` is one of the input old URLs. -/
theorem compareUrls_bucket_partition (oldUrls newUrls : List String)
    (rm : Option (List (String × String))) :
    (compareUrls oldUrls newUrls rm).matched.length
        + (compareUrls oldUrls newUrls rm).redirected.length
        + (compareUrls oldUrls newUrls rm).missing.length
      = ((oldUrls.map normalizeUrl).toFinset).card
    ∧ (∀ e ∈ (compareUrls oldUrls newUrls rm).matched, e.oldUrl ∈ oldUrls)
    ∧ (∀ e ∈ (compareUrls oldUrls newUrls rm).redirected, e.oldUrl ∈ oldUrls)
    ∧ (∀ e ∈ (compareUrls oldUrls newUrls rm).missing, e.oldUrl ∈ oldUrls) := by
  obtain ⟨hM, hR, hMi⟩ := compareUrls_buckets oldUrls newUrls rm
  have hkeys : ((oldUrls.map fun u => (normalizeUrl u, u)).map Prod.fst)
      = oldUrls.map normalizeUrl := by
    rw [List.map_map]
    rfl
  refine ⟨?_, ?_, ?_, ?_⟩
  · rw [hM, hR, hMi, classify_filterMap_length, jsMapOfPairs_length, hkeys]
  · intro e he
    rw [hM] at he
    rcases List.mem_filterMap.mp he with ⟨a, ha, hfa⟩
    rw [oldEntryMatched_oldUrl hfa]
    exact (mem_normPairs ha).1
  · intro e he
    rw [hR] at he
    rcases List.mem_filterMap.mp he with ⟨a, ha, hfa⟩
    rw [oldEntryRedirected_oldUrl hfa]
    exact (mem_normPairs ha).1
  · intro e he
    rw [hMi] at he
    rcases List.mem_filterMap.mp he with ⟨a, ha, hfa⟩
    rw [(oldEntryMissing_spec hfa).1]
    exact (mem_normPairs ha).1

/-- Witness for `compareUrls_bucket_partition` at a concrete input. -/
theorem compareUrls_bucket_partition_witness :
    ((⟨"http://a.com/x", none⟩ : MissingEntry)
        ∈ (compareUrls ["http://a.com/x"] [] none).missing)
    ∧ "http://a.com/x" ∈ ["http://a.com/x"] :=
  ⟨by with_unfolding_all decide,
   (compareUrls_bucket_partition ["http://a.com/x"] [] none).2.2.2
     ⟨"http://a.com/x", none⟩ (by with_unfolding_all decide)⟩

/-- C1's stated invariant `|matched| + |redirected| + |missing| = |oldUrls|`
fails when two old URLs share a normalization: the two old URLs below
normalize identically, and the buckets hold one entry, not two. -/
theorem compareUrls_bucket_sum_counterexample :
    (compareUrls ["http://a.com/x", "http://a.com/x/"] [] none).matched.length
        + (compareUrls ["http://a.com/x", "http://a.com/x/"] [] none).redirected.length
        + (compareUrls ["http://a.com/x", "http://a.com/x/"] [] none).missing.length = 1
    ∧ (["http://a.com/x", "http://a.com/x/"] : List String).length = 2 := by
  with_unfolding_all decide

/-- C2 — Corrected.  A redirect mapping `o → n` with `normalize n` among
the normalized new URLs yields a `redirected` entry `{o, n, 'mapped'}`
only for an `o` that survives map deduplication *and* whose own
normalization is not among the normalized new URLs (a direct match takes
precedence; the source checks the redirect map only in the `else`
branch). -/
theorem compareUrls_redirected_of_mapped (oldUrls newUrls : List String)
    (rm : List (String × String)) (o n : String)
    (hsurv : (normalizeUrl o, o) ∈ jsMapOfPairs (oldUrls.map fun u => (normalizeUrl u, u)))
    (hdirect : normalizeUrl o ∉ newUrls.map normalizeUrl)
    (hmap : jsMapGet rm o = some n)
    (htarget : normalizeUrl n ∈ newUrls.map normalizeUrl) :
    (⟨o, n, "mapped"⟩ : MatchedEntry) ∈ (compareUrls oldUrls newUrls (some rm)).redirected := by
  have hmapn : (newUrls.map fun u => normalizeUrl u) = newUrls.map normalizeUrl := rfl
  have h1 : normalizeUrl o ∉ jsSetOfList (newUrls.map fun u => normalizeUrl u) := by
    rw [hmapn]
    exact fun h => hdirect (jsSetOfList_mem.mp h)
  have h2 : normalizeUrl n ∈ jsSetOfList (newUrls.map fun u => normalizeUrl u) := by
    rw [hmapn]
    exact jsSetOfList_mem.mpr htarget
  rw [(compareUrls_buckets oldUrls newUrls (some rm)).2.1]
  exact List.mem_filterMap.mpr ⟨(normalizeUrl o, o), hsurv, oldEntryRedirected_of h1 hmap h2⟩

/-- Witness for `compareUrls_redirected_of_mapped` at the spec's S2
scenario. -/
theorem compareUrls_redirected_of_mapped_witness :
    ((normalizeUrl "https://old.site/legacy", "https://old.site/legacy")
        ∈ jsMapOfPairs ((["https://old.site/legacy"] : List String).map
            fun u => (normalizeUrl u, u)))
    ∧ (⟨"https://old.site/legacy", "https://new.site/shiny", "mapped"⟩ : MatchedEntry)
        ∈ (compareUrls ["https://old.site/legacy"] ["https://new.site/shiny"]
            (some [("https://old.site/legacy", "https://new.site/shiny")])).redirected :=
  ⟨by with_unfolding_all decide,
   compareUrls_redirected_of_mapped ["https://old.site/legacy"] ["https://new.site/shiny"]
     [("https://old.site/legacy", "https://new.site/shiny")]
     "https://old.site/legacy" "https://new.site/shiny"
     (by with_unfolding_all decide) (by with_unfolding_all decide)
     (by with_unfolding_all decide) (by with_unfolding_all decide)⟩

/-- C2's claim that the redirect mapping wins `regardless` of a direct
match is false: here `o` itself is among the new URLs, the redirect
mapping to a valid target notwithstanding, and `compareUrls` leaves
`redirected` empty (the entry lands in `matched`). -/
theorem compareUrls_redirect_precedence_counterexample :
    (compareUrls ["http://old.com/a"] ["http://old.com/a", "http://new.com/b"]
        (some [("http://old.com/a", "http://new.com/b")])).redirected = []
    ∧ jsMapGet [("http://old.com/a", "http://new.com/b")] "http://old.com/a"
        = some "http://new.com/b"
    ∧ normalizeUrl "http://new.com/b"
        ∈ (["http://old.com/a", "http://new.com/b"] : List String).map normalizeUrl := by
  with_unfolding_all decide

/-- C4 — Corrected.  The summary counts are the bucket lengths, and
`matchRate` is the *percentage* `(matched + redirected) / totalOld × 100`
to two decimals (not the plain ratio); with no old URLs the old-side
counts and the match rate are zero (`totalNewUrls`/`newCount` still
reflect the new URLs). -/
theorem compareUrls_summary_matchRate (oldUrls newUrls : List String)
    (rm : Option (List (String × String))) :
    (compareUrls oldUrls newUrls rm).summary.matchedCount
        = (compareUrls oldUrls newUrls rm).matched.length
    ∧ (compareUrls oldUrls newUrls rm).summary.redirectedCount
        = (compareUrls oldUrls newUrls rm).redirected.length
    ∧ (compareUrls oldUrls newUrls rm).summary.missingCount
        = (compareUrls oldUrls newUrls rm).missing.length
    ∧ (compareUrls oldUrls newUrls rm).summary.totalOldUrls = oldUrls.length
    ∧ (compareUrls oldUrls newUrls rm).summary.matchRate
        = (if 0 < oldUrls.length then
            jsToFixed2 ((((compareUrls oldUrls newUrls rm).matched.length : ℚ)
              + (compareUrls oldUrls newUrls rm).redirected.length) / oldUrls.length * 100)
          else 0)
    ∧ (oldUrls = [] →
        (compareUrls oldUrls newUrls rm).summary.matchedCount = 0
        ∧ (compareUrls oldUrls newUrls rm).summary.redirectedCount = 0
        ∧ (compareUrls oldUrls newUrls rm).summary.missingCount = 0
        ∧ (compareUrls oldUrls newUrls rm).summary.totalOldUrls = 0
        ∧ (compareUrls oldUrls newUrls rm).summary.matchRate = 0) := by
  refine ⟨?_, ?_, ?_, ?_, ?_, ?_⟩
  · simp [compareUrls, compareOldLoop_eq]
  · simp [compareUrls, compareOldLoop_eq]
  · simp [compareUrls, compareOldLoop_eq]
  · simp [compareUrls, compareOldLoop_eq]
  · simp only [compareUrls, compareOldLoop_eq]
  · rintro rfl
    simp [compareUrls, compareOldLoop_eq, jsMapOfPairs]

/-- Witness for `compareUrls_summary_matchRate`'s empty-input clause. -/
theorem compareUrls_summary_matchRate_witness :
    (compareUrls [] ["http://n.com/a"] none).summary.matchedCount = 0
    ∧ (compareUrls [] ["http://n.com/a"] none).summary.redirectedCount = 0
    ∧ (compareUrls [] ["http://n.com/a"] none).summary.missingCount = 0
    ∧ (compareUrls [] ["http://n.com/a"] none).summary.totalOldUrls = 0
    ∧ (compareUrls [] ["http://n.com/a"] none).summary.matchRate = 0 :=
  (compareUrls_summary_matchRate [] ["http://n.com/a"] none).2.2.2.2.2 rfl

/-- C4's statement fails in two ways at concrete inputs: the stored
match rate is the percentage `100`, not the rounded ratio `1`, and with
an empty old list the summary still counts the new URLs (`newCount = 1 ≠ 0`). -/
theorem compareUrls_matchRate_counterexample :
    (compareUrls ["http://a.com/x"] ["http://a.com/x"] none).summary.matchRate = 100
    ∧ jsToFixed2 ((((compareUrls ["http://a.com/x"] ["http://a.com/x"] none).matched.length : ℚ)
        + (compareUrls ["http://a.com/x"] ["http://a.com/x"] none).redirected.length) / 1) = 1
    ∧ (100 : ℚ) ≠ 1
    ∧ (compareUrls [] ["http://n.com/a"] none).summary.newCount = 1 := by
  with_unfolding_all decide

/-! ### The maximality invariant of `findSimilarUrl` -/

/-- The similarity `findSimilarUrl` computes for a candidate against a
parsed target (`none` when the candidate fails to parse and is skipped). -/
def candidatePathSim (t : JsUrl) (candidateUrl : String) : Option ℚ :=
  (parseURLChars candidateUrl.data).map
    (fun cu => calculateSimilarity (String.mk t.pathname) (String.mk cu.pathname))

/-- Invariant of the `findSimilarUrl` scan over the already-processed
candidates: either nothing was selected and every processed candidate's
similarity is at most `0.5`, or the selected candidate is a processed one
whose similarity exceeds `0.5` and is maximal among the processed. -/
def simInv (t : JsUrl) (processed : List String) (st : ℚ × Option String) : Prop :=
  (st.2 = none → st.1 = 0 ∧ ∀ c ∈ processed, ∀ q, candidatePathSim t c = some q → q ≤ 1 / 2)
  ∧ ∀ c0, st.2 = some c0 → c0 ∈ processed ∧ candidatePathSim t c0 = some st.1
      ∧ (1 : ℚ) / 2 < st.1
      ∧ ∀ c' ∈ processed, ∀ q', candidatePathSim t c' = some q' → q' ≤ st.1

theorem findSimilarStep_inv (t : JsUrl) (processed : List String) (st : ℚ × Option String)
    (c : String) (h : simInv t processed st) :
    simInv t (processed ++ [c]) (findSimilarStep t st c) := by
  obtain ⟨hn, hsm⟩ := h
  cases hp : parseURLChars c.data with
  | none =>
    have hnone : candidatePathSim t c = none := by simp [candidatePathSim, hp]
    have hstep : findSimilarStep t st c = st := by
      simp only [findSimilarStep, hp]
    rw [hstep]
    refine ⟨fun h2 => ?_, fun c0 hc0 => ?_⟩
    · obtain ⟨h0, hb⟩ := hn h2
      refine ⟨h0, fun c' hc' q hq => ?_⟩
      rcases List.mem_append.mp hc' with hc' | hc'
      · exact hb c' hc' q hq
      · rw [List.mem_singleton.mp hc', hnone] at hq
        cases hq
    · obtain ⟨hmem, hsim, hgt, hb⟩ := hsm c0 hc0
      refine ⟨List.mem_append_left _ hmem, hsim, hgt, fun c' hc' q' hq' => ?_⟩
      rcases List.mem_append.mp hc' with hc' | hc'
      · exact hb c' hc' q' hq'
      · rw [List.mem_singleton.mp hc', hnone] at hq'
        cases hq'
  | some cu =>
    have hcs : candidatePathSim t c
        = some (calculateSimilarity (String.mk t.pathname) (String.mk cu.pathname)) := by
      simp [candidatePathSim, hp]
    set s := calculateSimilarity (String.mk t.pathname) (String.mk cu.pathname) with hsdef
    have hstep : findSimilarStep t st c
        = if s > st.1 && s > (1 : ℚ) / 2 then (s, some c) else st := by
      simp only [findSimilarStep, hp]
    rw [hstep]
    by_cases hcond : st.1 < s ∧ (1 : ℚ) / 2 < s
    · have hbool : (s > st.1 && s > (1 : ℚ) / 2) = true := by
        simp only [Bool.and_eq_true, decide_eq_true_eq, gt_iff_lt]
        exact ⟨hcond.1, hcond.2⟩
      rw [if_pos hbool]
      refine ⟨fun h2 => ?_, fun c0 hc0 => ?_⟩
      · simp at h2
      have hc0' : some c = some c0 := hc0
      injection hc0' with hc0c
      subst hc0c
      refine ⟨List.mem_append_right _ (List.mem_singleton_self c), hcs, hcond.2,
        fun c' hc' q' hq' => ?_⟩
      rcases List.mem_append.mp hc' with hc' | hc'
      · cases hst : st.2 with
        | none =>
          obtain ⟨h0, hb⟩ := hn hst
          have := hb c' hc' q' hq'
          linarith [hcond.2]
        | some c1 =>
          obtain ⟨_, _, _, hb⟩ := hsm c1 hst
          have := hb c' hc' q' hq'
          linarith [hcond.1]
      · rw [List.mem_singleton.mp hc', hcs] at hq'
        injection hq' with hq''
        rw [← hq'']
    · have hbool : ¬ ((s > st.1 && s > (1 : ℚ) / 2) = true) := by
        simp only [Bool.and_eq_true, decide_eq_true_eq, gt_iff_lt]
        exact hcond
      rw [if_neg hbool]
      push_neg at hcond
      refine ⟨fun h2 => ?_, fun c0 hc0 => ?_⟩
      · obtain ⟨h0, hb⟩ := hn h2
        refine ⟨h0, fun c' hc' q hq => ?_⟩
        rcases List.mem_append.mp hc' with hc' | hc'
        · exact hb c' hc' q hq
        · rw [List.mem_singleton.mp hc', hcs] at hq
          injection hq with hq''
          rw [← hq'']
          by_cases hlt : st.1 < s
          · exact le_of_not_lt fun h12 => absurd (hcond hlt) (not_le.mpr h12)
          · rw [h0] at hlt
            have hs0 : s ≤ 0 := le_of_not_lt hlt
            linarith
      · obtain ⟨hmem, hsim, hgt, hb⟩ := hsm c0 hc0
        refine ⟨List.mem_append_left _ hmem, hsim, hgt, fun c' hc' q' hq' => ?_⟩
        rcases List.mem_append.mp hc' with hc' | hc'
        · exact hb c' hc' q' hq'
        · rw [List.mem_singleton.mp hc', hcs] at hq'
          injection hq' with hq''
          rw [← hq'']
          by_cases hlt : st.1 < s
          · have := hcond hlt
            linarith
          · exact le_of_not_lt hlt

theorem foldl_findSimilarStep_inv (t : JsUrl) (cs : List String) :
    ∀ (processed : List String) (st : ℚ × Option String), simInv t processed st →
      simInv t (processed ++ cs) (cs.foldl (findSimilarStep t) st) := by
  induction cs with
  | nil => intro processed st h; simpa using h
  | cons c cs ih =>
    intro processed st h
    rw [List.foldl_cons]
    have h' := ih (processed ++ [c]) (findSimilarStep t st c) (findSimilarStep_inv t processed st c h)
    rwa [List.append_assoc, List.singleton_append] at h'

/-- What a `findSimilarUrl` result means: `none` when the target is
unparseable or no candidate's path similarity exceeds `0.5`; otherwise a
candidate of maximal path similarity exceeding `0.5`. -/
def bestSuggestion (targetUrl : String) (candidates : List String) (sugg : Option String) :
    Prop :=
  match parseURLChars targetUrl.data with
  | none => sugg = none
  | some t =>
    match sugg with
    | none => ∀ c ∈ candidates, ∀ q, candidatePathSim t c = some q → q ≤ 1 / 2
    | some c => c ∈ candidates ∧ ∃ q, candidatePathSim t c = some q ∧ (1 : ℚ) / 2 < q
        ∧ ∀ c' ∈ candidates, ∀ q', candidatePathSim t c' = some q' → q' ≤ q

theorem findSimilarUrl_spec (targetUrl : String) (candidates : List String) :
    bestSuggestion targetUrl candidates (findSimilarUrl targetUrl candidates) := by
  cases hp : parseURLChars targetUrl.data with
  | none =>
    by_cases hlen : candidates.length = 0 <;>
      simp [bestSuggestion, findSimilarUrl, hp, hlen]
  | some t =>
    by_cases hlen : candidates.length = 0
    · rw [List.length_eq_zero] at hlen
      subst hlen
      simp [bestSuggestion, findSimilarUrl, hp]
    · have hinit : simInv t [] ((0 : ℚ), none) := by
        refine ⟨fun _ => ⟨rfl, by simp⟩, fun c0 hc0 => by cases hc0⟩
      have hinv := foldl_findSimilarStep_inv t candidates [] ((0 : ℚ), none) hinit
      rw [List.nil_append] at hinv
      rw [findSimilarUrl, if_neg hlen, hp]
      simp only [bestSuggestion, hp]
      cases hfin : (candidates.foldl (findSimilarStep t) ((0 : ℚ), none)).2 with
      | none =>
        obtain ⟨_, hb⟩ := hinv.1 hfin
        exact hb
      | some c =>
        obtain ⟨hmem, hsim, hgt, hb⟩ := hinv.2 c hfin
        exact ⟨hmem, _, hsim, hgt, hb⟩

/-- C5 — Corrected.  A missing entry's suggestion is `findSimilarUrl`
run with the *normalized* old URL as target over the *normalized,
deduplicated* new URLs as candidates (not the original new URLs), and it
is the candidate of maximal path similarity above `0.5` — `none` when no
candidate exceeds `0.5` or the target does not parse. -/
theorem compareUrls_missing_suggestion (oldUrls newUrls : List String)
    (rm : Option (List (String × String))) :
    ∀ e ∈ (compareUrls oldUrls newUrls rm).missing,
      e.suggestion = findSimilarUrl (normalizeUrl e.oldUrl)
          (jsSetOfList (newUrls.map fun u => normalizeUrl u))
      ∧ bestSuggestion (normalizeUrl e.oldUrl)
          (jsSetOfList (newUrls.map fun u => normalizeUrl u)) e.suggestion := by
  intro e he
  rw [(compareUrls_buckets oldUrls newUrls rm).2.2] at he
  rcases List.mem_filterMap.mp he with ⟨a, ha, hfa⟩
  obtain ⟨hold, hsug⟩ := oldEntryMissing_spec hfa
  have hkey : a.1 = normalizeUrl a.2 := (mem_normPairs ha).2
  rw [hold, hsug, hkey]
  exact ⟨rfl, findSimilarUrl_spec _ _⟩

/-- Witness for `compareUrls_missing_suggestion` at a concrete input
whose suggestion is the normalization of a new URL. -/
theorem compareUrls_missing_suggestion_witness :
    ((⟨"http://old.com/page1", some "http://new.com/page2"⟩ : MissingEntry)
        ∈ (compareUrls ["http://old.com/page1"] ["http://new.com/page2/"] none).missing)
    ∧ some "http://new.com/page2" = findSimilarUrl (normalizeUrl "http://old.com/page1")
        (jsSetOfList ((["http://new.com/page2/"] : List String).map fun u => normalizeUrl u))
    ∧ bestSuggestion (normalizeUrl "http://old.com/page1")
        (jsSetOfList ((["http://new.com/page2/"] : List String).map fun u => normalizeUrl u))
        (some "http://new.com/page2") :=
  have hmem : (⟨"http://old.com/page1", some "http://new.com/page2"⟩ : MissingEntry)
      ∈ (compareUrls ["http://old.com/page1"] ["http://new.com/page2/"] none).missing := by
    with_unfolding_all decide
  have h := compareUrls_missing_suggestion ["http://old.com/page1"] ["http://new.com/page2/"]
    none ⟨"http://old.com/page1", some "http://new.com/page2"⟩ hmem
  ⟨hmem, h.1, h.2⟩

/-- C5's statement that the suggestion is one of the original
(un-normalized) new URLs is false: the only new URL carries a trailing
slash, and the suggestion produced is its normalization, which is not an
element of the input list. -/
theorem compareUrls_suggestion_counterexample :
    (compareUrls ["http://old.com/page1"] ["http://new.com/page2/"] none).missing
      = [⟨"http://old.com/page1", some "http://new.com/page2"⟩]
    ∧ "http://new.com/page2" ∉ (["http://new.com/page2/"] : List String) := by
  with_unfolding_all decide

/-! ### The retry policy of `checkMultipleUrls` -/

theorem retryLoop_spec (probe : Nat → ProbeResult) (delay : Nat) :
    ∀ remaining attempts, 0 < remaining →
      1 ≤ (retryLoop probe delay remaining attempts).probes
      ∧ (retryLoop probe delay remaining attempts).probes ≤ remaining
      ∧ (retryLoop probe delay remaining attempts).result
          = some (probe (attempts + (retryLoop probe delay remaining attempts).probes - 1))
      ∧ (∀ i, i + 1 < (retryLoop probe delay remaining attempts).probes →
          isRetryable (probe (attempts + i)) = true)
      ∧ (retryLoop probe delay remaining attempts).sleeps
          = (List.range ((retryLoop probe delay remaining attempts).probes - 1)).map
              (fun j => delay * (attempts + j + 1)) := by
  intro remaining
  induction remaining with
  | zero => exact fun attempts h => absurd h (Nat.lt_irrefl 0)
  | succ r ih =>
    intro attempts _
    cases hr : isRetryable (probe attempts) with
    | false =>
      have hval : retryLoop probe delay (r + 1) attempts
          = { result := some (probe attempts), sleeps := [], probes := 1 } := by
        simp [retryLoop, hr]
      rw [hval]
      dsimp only
      refine ⟨le_refl 1, Nat.succ_le_succ (Nat.zero_le r), by simp, ?_, by simp⟩
      intro i hi
      exact absurd hi (by omega)
    | true =>
      cases r with
      | zero =>
        have hval : retryLoop probe delay 1 attempts
            = { result := some (probe attempts), sleeps := [], probes := 1 } := by
          simp [retryLoop, hr]
        rw [hval]
        dsimp only
        refine ⟨le_refl 1, le_refl 1, by simp, ?_, by simp⟩
        intro i hi
        exact absurd hi (by omega)
      | succ r' =>
        have hval : retryLoop probe delay (r' + 1 + 1) attempts
            = { result := (retryLoop probe delay (r' + 1) (attempts + 1)).result
                sleeps := delay * (attempts + 1)
                  :: (retryLoop probe delay (r' + 1) (attempts + 1)).sleeps
                probes := (retryLoop probe delay (r' + 1) (attempts + 1)).probes + 1 } := by
          simp [retryLoop, hr]
        obtain ⟨h1, h2, h3, h4, h5⟩ := ih (attempts + 1) (Nat.succ_pos r')
        rw [hval]
        dsimp only
        refine ⟨?_, ?_, ?_, ?_, ?_⟩
        · exact Nat.le_add_left 1 _
        · exact Nat.succ_le_succ h2
        · rw [h3]
          have heq : attempts + 1 + (retryLoop probe delay (r' + 1) (attempts + 1)).probes - 1
              = attempts + ((retryLoop probe delay (r' + 1) (attempts + 1)).probes + 1) - 1 := by
            omega
          rw [heq]
        · intro i hi
          cases i with
          | zero => simpa using hr
          | succ j =>
            have hj : j + 1 < (retryLoop probe delay (r' + 1) (attempts + 1)).probes := by
              omega
            have hjr := h4 j hj
            have heq : attempts + (j + 1) = attempts + 1 + j := by omega
            rw [heq]
            exact hjr
        · rw [h5]
          have hp1 : (retryLoop probe delay (r' + 1) (attempts + 1)).probes + 1 - 1
              = ((retryLoop probe delay (r' + 1) (attempts + 1)).probes - 1) + 1 := by
            omega
          rw [hp1, List.range_succ_eq_map, List.map_cons, List.map_map]
          refine congrArg₂ List.cons (by simp) ?_
          refine List.map_congr_left fun j _ => ?_
          show delay * (attempts + 1 + j + 1) = delay * (attempts + (j + 1) + 1)
          congr 1
          omega

/-- C6 — Confirmed.  In the `checkMultipleUrls` retry loop with
`retryAttempts ≥ 1`: between one and `retryAttempts` probes are issued;
the recorded result is the last probe's; every re-attempt follows a
result with status `0` or `≥ 500` (hence never a 4xx result); the
sleeps before the retries are `delay×1, delay×2, …` (linear backoff);
and `retryAttempts = 1` never sleeps. -/
theorem checkMultipleUrls_retry_policy (probe : Nat → ProbeResult)
    (retryAttempts delay : Nat) (h : 1 ≤ retryAttempts) :
    1 ≤ (runRetry probe retryAttempts delay).probes
    ∧ (runRetry probe retryAttempts delay).probes ≤ retryAttempts
    ∧ (runRetry probe retryAttempts delay).result
        = some (probe ((runRetry probe retryAttempts delay).probes - 1))
    ∧ (∀ i, i + 1 < (runRetry probe retryAttempts delay).probes →
        isRetryable (probe i) = true)
    ∧ (∀ i, i + 1 < (runRetry probe retryAttempts delay).probes →
        ¬(400 ≤ (probe i).statusCode ∧ (probe i).statusCode < 500))
    ∧ (runRetry probe retryAttempts delay).sleeps
        = (List.range ((runRetry probe retryAttempts delay).probes - 1)).map
            (fun k => delay * (k + 1))
    ∧ (retryAttempts = 1 → (runRetry probe retryAttempts delay).sleeps = []) := by
  obtain ⟨h1, h2, h3, h4, h5⟩ := retryLoop_spec probe delay retryAttempts 0 h
  refine ⟨h1, h2, ?_, ?_, ?_, ?_, ?_⟩
  · rw [runRetry, h3]
    have heq : 0 + (retryLoop probe delay retryAttempts 0).probes - 1
        = (retryLoop probe delay retryAttempts 0).probes - 1 := by omega
    rw [heq]
  · intro i hi
    have := h4 i hi
    rw [Nat.zero_add] at this
    exact this
  · intro i hi hbad
    have hret := h4 i hi
    rw [Nat.zero_add, isRetryable] at hret
    simp only [Bool.or_eq_true, decide_eq_true_eq] at hret
    omega
  · rw [runRetry, h5]
    refine List.map_congr_left fun j _ => ?_
    show delay * (0 + j + 1) = delay * (j + 1)
    congr 1
    omega
  · intro hra
    rw [runRetry, h5]
    have hp : (retryLoop probe delay retryAttempts 0).probes = 1 := by omega
    rw [hp]
    simp

/-- Witness for `checkMultipleUrls_retry_policy` at the spec's S5 probe
sequence (500, 500, then 200) with three attempts and delay 100. -/
theorem checkMultipleUrls_retry_policy_witness :
    (1 ≤ 3
      ∧ 1 ≤ (runRetry (fun i => if i = 0 then ⟨"u", 500, 10⟩
          else if i = 1 then ⟨"u", 500, 10⟩ else ⟨"u", 200, 5⟩) 3 100).probes) ∧
    (runRetry (fun i => if i = 0 then ⟨"u", 500, 10⟩
        else if i = 1 then ⟨"u", 500, 10⟩ else ⟨"u", 200, 5⟩) 3 100).sleeps
      = (List.range ((runRetry (fun i => if i = 0 then ⟨"u", 500, 10⟩
          else if i = 1 then ⟨"u", 500, 10⟩ else ⟨"u", 200, 5⟩) 3 100).probes - 1)).map
          (fun k => 100 * (k + 1)) :=
  ⟨⟨by decide,
    (checkMultipleUrls_retry_policy (fun i => if i = 0 then ⟨"u", 500, 10⟩
      else if i = 1 then ⟨"u", 500, 10⟩ else ⟨"u", 200, 5⟩) 3 100 (by decide)).1⟩,
   (checkMultipleUrls_retry_policy (fun i => if i = 0 then ⟨"u", 500, 10⟩
      else if i = 1 then ⟨"u", 500, 10⟩ else ⟨"u", 200, 5⟩) 3 100 (by decide)).2.2.2.2.2.1⟩

/-! ### The partition computed by `categorizeResults` -/

/-- Membership test of the `ok` bucket. -/
def catOkP (r : ProbeResult) : Bool := r.statusCode = 200

/-- Membership test of the `redirects` bucket. -/
def catRedirectP (r : ProbeResult) : Bool := 300 ≤ r.statusCode && r.statusCode < 400

/-- Membership test of the `clientErrors` bucket. -/
def catClientP (r : ProbeResult) : Bool := 400 ≤ r.statusCode && r.statusCode < 500

/-- Membership test of the `serverErrors` bucket. -/
def catServerP (r : ProbeResult) : Bool := 500 ≤ r.statusCode

/-- Membership test of the catch-all `networkErrors` bucket: any status
below 300 other than 200 (in particular the transport-failure code 0). -/
def catNetworkP (r : ProbeResult) : Bool := r.statusCode < 300 && !(r.statusCode = 200)

theorem categorizeStep_eq (c : Categorized) (t : Nat) (r : ProbeResult) :
    categorizeStep (c, t) r =
      ({ ok := c.ok ++ if catOkP r then [r] else []
         redirects := c.redirects ++ if catRedirectP r then [r] else []
         clientErrors := c.clientErrors ++ if catClientP r then [r] else []
         serverErrors := c.serverErrors ++ if catServerP r then [r] else []
         networkErrors := c.networkErrors ++ if catNetworkP r then [r] else []
         summary :=
           { total := c.summary.total
             okCount := c.summary.okCount + if catOkP r then 1 else 0
             redirectCount := c.summary.redirectCount + if catRedirectP r then 1 else 0
             clientErrorCount := c.summary.clientErrorCount + if catClientP r then 1 else 0
             serverErrorCount := c.summary.serverErrorCount + if catServerP r then 1 else 0
             networkErrorCount := c.summary.networkErrorCount + if catNetworkP r then 1 else 0
             avgResponseTime := c.summary.avgResponseTime } },
       t + r.responseTime) := by
  by_cases h1 : r.statusCode = 200
  · have e1 : catOkP r = true := by simp [catOkP, h1]
    have e2 : catRedirectP r = false := by simp [catRedirectP]; omega
    have e3 : catClientP r = false := by simp [catClientP]; omega
    have e4 : catServerP r = false := by simp [catServerP]; omega
    have e5 : catNetworkP r = false := by simp [catNetworkP]; omega
    simp [categorizeStep, h1, e1, e2, e3, e4, e5]
  · by_cases h2 : 300 ≤ r.statusCode ∧ r.statusCode < 400
    · have e1 : catOkP r = false := by simp [catOkP, h1]
      have e2 : catRedirectP r = true := by simp [catRedirectP]; omega
      have e3 : catClientP r = false := by simp [catClientP]; omega
      have e4 : catServerP r = false := by simp [catServerP]; omega
      have e5 : catNetworkP r = false := by simp [catNetworkP]; omega
      have g2 : (r.statusCode ≥ 300 && r.statusCode < 400) = true := by simp; omega
      simp [categorizeStep, h1, g2, e1, e2, e3, e4, e5]
    · by_cases h3 : 400 ≤ r.statusCode ∧ r.statusCode < 500
      · have e1 : catOkP r = false := by simp [catOkP, h1]
        have e2 : catRedirectP r = false := by simp [catRedirectP]; omega
        have e3 : catClientP r = true := by simp [catClientP]; omega
        have e4 : catServerP r = false := by simp [catServerP]; omega
        have e5 : catNetworkP r = false := by simp [catNetworkP]; omega
        have g2 : (r.statusCode ≥ 300 && r.statusCode < 400) = false := by simp; omega
        have g3 : (r.statusCode ≥ 400 && r.statusCode < 500) = true := by simp; omega
        simp [categorizeStep, h1, g2, g3, e1, e2, e3, e4, e5]
      · by_cases h4 : 500 ≤ r.statusCode
        · have e1 : catOkP r = false := by simp [catOkP, h1]
          have e2 : catRedirectP r = false := by simp [catRedirectP]; omega
          have e3 : catClientP r = false := by simp [catClientP]; omega
          have e4 : catServerP r = true := by simp [catServerP]; omega
          have e5 : catNetworkP r = false := by simp [catNetworkP]; omega
          have g2 : (r.statusCode ≥ 300 && r.statusCode < 400) = false := by simp; omega
          have g3 : (r.statusCode ≥ 400 && r.statusCode < 500) = false := by simp; omega
          simp [categorizeStep, h1, g2, g3, h4, e1, e2, e3, e4, e5]
        · have e1 : catOkP r = false := by simp [catOkP, h1]
          have e2 : catRedirectP r = false := by simp [catRedirectP]; omega
          have e3 : catClientP r = false := by simp [catClientP]; omega
          have e4 : catServerP r = false := by simp [catServerP]; omega
          have e5 : catNetworkP r = true := by simp [catNetworkP]; omega
          have g2 : (r.statusCode ≥ 300 && r.statusCode < 400) = false := by simp; omega
          have g3 : (r.statusCode ≥ 400 && r.statusCode < 500) = false := by simp; omega
          simp [categorizeStep, h1, g2, g3, h4, e1, e2, e3, e4, e5]

theorem categorize_foldl (rs : List ProbeResult) :
    ∀ (c : Categorized) (t : Nat),
      rs.foldl categorizeStep (c, t) =
        ({ ok := c.ok ++ rs.filter catOkP
           redirects := c.redirects ++ rs.filter catRedirectP
           clientErrors := c.clientErrors ++ rs.filter catClientP
           serverErrors := c.serverErrors ++ rs.filter catServerP
           networkErrors := c.networkErrors ++ rs.filter catNetworkP
           summary :=
             { total := c.summary.total
               okCount := c.summary.okCount + (rs.filter catOkP).length
               redirectCount := c.summary.redirectCount + (rs.filter catRedirectP).length
               clientErrorCount := c.summary.clientErrorCount + (rs.filter catClientP).length
               serverErrorCount := c.summary.serverErrorCount + (rs.filter catServerP).length
               networkErrorCount := c.summary.networkErrorCount
                 + (rs.filter catNetworkP).length
               avgResponseTime := c.summary.avgResponseTime } },
         t + (rs.map (fun r => r.responseTime)).sum) := by
  induction rs with
  | nil => intro c t; simp
  | cons r rs ih =>
    intro c t
    rw [List.foldl_cons, categorizeStep_eq, ih]
    cases e1 : catOkP r <;> cases e2 : catRedirectP r <;> cases e3 : catClientP r <;>
      cases e4 : catServerP r <;> cases e5 : catNetworkP r <;>
      simp [List.filter_cons, e1, e2, e3, e4, e5, Nat.add_assoc, Nat.add_comm,
        Nat.add_left_comm]

theorem cat_filter_length_sum (rs : List ProbeResult) :
    (rs.filter catOkP).length + (rs.filter catRedirectP).length
      + (rs.filter catClientP).length + (rs.filter catServerP).length
      + (rs.filter catNetworkP).length = rs.length := by
  induction rs with
  | nil => simp
  | cons r rs ih =>
    simp only [List.filter_cons, List.length_cons]
    by_cases h1 : r.statusCode = 200
    · have e1 : catOkP r = true := by simp [catOkP, h1]
      have e2 : catRedirectP r = false := by simp [catRedirectP]; omega
      have e3 : catClientP r = false := by simp [catClientP]; omega
      have e4 : catServerP r = false := by simp [catServerP]; omega
      have e5 : catNetworkP r = false := by simp [catNetworkP]; omega
      simp [e1, e2, e3, e4, e5]
      omega
    · by_cases h2 : 300 ≤ r.statusCode ∧ r.statusCode < 400
      · have e1 : catOkP r = false := by simp [catOkP, h1]
        have e2 : catRedirectP r = true := by simp [catRedirectP]; omega
        have e3 : catClientP r = false := by simp [catClientP]; omega
        have e4 : catServerP r = false := by simp [catServerP]; omega
        have e5 : catNetworkP r = false := by simp [catNetworkP]; omega
        simp [e1, e2, e3, e4, e5]
        omega
      · by_cases h3 : 400 ≤ r.statusCode ∧ r.statusCode < 500
        · have e1 : catOkP r = false := by simp [catOkP, h1]
          have e2 : catRedirectP r = false := by simp [catRedirectP]; omega
          have e3 : catClientP r = true := by simp [catClientP]; omega
          have e4 : catServerP r = false := by simp [catServerP]; omega
          have e5 : catNetworkP r = false := by simp [catNetworkP]; omega
          simp [e1, e2, e3, e4, e5]
          omega
        · by_cases h4 : 500 ≤ r.statusCode
          · have e1 : catOkP r = false := by simp [catOkP, h1]
            have e2 : catRedirectP r = false := by simp [catRedirectP]; omega
            have e3 : catClientP r = false := by simp [catClientP]; omega
            have e4 : catServerP r = true := by simp [catServerP]; omega
            have e5 : catNetworkP r = false := by simp [catNetworkP]; omega
            simp [e1, e2, e3, e4, e5]
            omega
          · have e1 : catOkP r = false := by simp [catOkP, h1]
            have e2 : catRedirectP r = false := by simp [catRedirectP]; omega
            have e3 : catClientP r = false := by simp [catClientP]; omega
            have e4 : catServerP r = false := by simp [catServerP]; omega
            have e5 : catNetworkP r = true := by simp [catNetworkP]; omega
            simp [e1, e2, e3, e4, e5]
            omega

/-- C7 — Corrected.  `categorizeResults` partitions a batch into five
buckets — `200` exactly, `3xx`, `4xx`, `≥ 500` — with counts equal to
bucket sizes, every result in exactly one bucket, and average response
time `Math.round` of the mean (`0` for an empty batch); but the
catch-all bucket `networkErrors` holds every status below 300 other
than 200 (informational and non-200 2xx codes included), not only the
transport-failure code 0. -/
theorem categorizeResults_partition (rs : List ProbeResult) :
    (categorizeResults rs).ok = rs.filter catOkP
    ∧ (categorizeResults rs).redirects = rs.filter catRedirectP
    ∧ (categorizeResults rs).clientErrors = rs.filter catClientP
    ∧ (categorizeResults rs).serverErrors = rs.filter catServerP
    ∧ (categorizeResults rs).networkErrors = rs.filter catNetworkP
    ∧ (categorizeResults rs).summary.okCount = (categorizeResults rs).ok.length
    ∧ (categorizeResults rs).summary.redirectCount = (categorizeResults rs).redirects.length
    ∧ (categorizeResults rs).summary.clientErrorCount
        = (categorizeResults rs).clientErrors.length
    ∧ (categorizeResults rs).summary.serverErrorCount
        = (categorizeResults rs).serverErrors.length
    ∧ (categorizeResults rs).summary.networkErrorCount
        = (categorizeResults rs).networkErrors.length
    ∧ (categorizeResults rs).ok.length + (categorizeResults rs).redirects.length
        + (categorizeResults rs).clientErrors.length
        + (categorizeResults rs).serverErrors.length
        + (categorizeResults rs).networkErrors.length = rs.length
    ∧ (categorizeResults rs).summary.total = rs.length
    ∧ (categorizeResults rs).summary.avgResponseTime
        = (if 0 < rs.length then
            jsRound (((rs.map (fun r => r.responseTime)).sum : ℚ) / rs.length)
          else 0) := by
  have hfold := categorize_foldl rs
  simp only [categorizeResults, hfold, List.nil_append, Nat.zero_add, true_and, and_true,
    eq_self_iff_true]
  refine ⟨cat_filter_length_sum rs, ?_⟩
  rw [Nat.cast_list_sum, List.map_map]
  rfl

/-- C7's description of the fifth bucket as `networkErrors (statusCode
0)` is false: a 204 No Content probe result is placed in
`networkErrors` although its status is not 0. -/
theorem categorizeResults_networkErrors_counterexample :
    (categorizeResults [⟨"u", 204, 50⟩]).networkErrors = [⟨"u", 204, 50⟩]
    ∧ (204 : Nat) ≠ 0 := by
  with_unfolding_all decide

/-! ### Absent metadata in the SEO comparison -/

/-- C8 — Corrected.  When at least one side is absent (falsy), the
title and description comparisons return the corresponding
`missing`-issue mismatch only when *exactly one* side is absent; with
*both* sides absent they return a trivial match (`match = true`,
`similarity = 1`, no issue). -/
theorem compare_metadata_absent (o n : Option String)
    (h : jsFalsyStr o = true ∨ jsFalsyStr n = true) :
    compareTitles o n = (if jsFalsyStr o && jsFalsyStr n then ⟨true, 1, none⟩
        else if jsFalsyStr o then ⟨false, 0, some "Old page missing title tag"⟩
        else ⟨false, 0, some "New page missing title tag"⟩)
    ∧ compareDescriptions o n = (if jsFalsyStr o && jsFalsyStr n then ⟨true, 1, none⟩
        else if jsFalsyStr o then ⟨false, 0, some "Old page missing meta description"⟩
        else ⟨false, 0, some "New page missing meta description"⟩) := by
  cases ho : jsFalsyStr o <;> cases hn : jsFalsyStr n
  · rcases h with h | h <;> simp_all
  · exact ⟨by simp [compareTitles, ho, hn], by simp [compareDescriptions, ho, hn]⟩
  · exact ⟨by simp [compareTitles, ho, hn], by simp [compareDescriptions, ho, hn]⟩
  · exact ⟨by simp [compareTitles, ho, hn], by simp [compareDescriptions, ho, hn]⟩

/-- Witness for `compare_metadata_absent` with the old side absent. -/
theorem compare_metadata_absent_witness :
    (jsFalsyStr (none : Option String) = true ∨ jsFalsyStr (some "T") = true)
    ∧ compareTitles none (some "T") = ⟨false, 0, some "Old page missing title tag"⟩
    ∧ compareDescriptions none (some "T")
        = ⟨false, 0, some "Old page missing meta description"⟩ :=
  have h : jsFalsyStr (none : Option String) = true ∨ jsFalsyStr (some "T") = true :=
    Or.inl rfl
  have hc := compare_metadata_absent none (some "T") h
  ⟨h, hc.1.trans (by with_unfolding_all decide),
    hc.2.trans (by with_unfolding_all decide)⟩

/-- C8's requirement of `match = false` for every pair with an absent
side fails when both sides are absent: the source then reports a full
match with similarity 1 and no issue. -/
theorem compareTitles_both_absent_counterexample :
    compareTitles none none = ⟨true, 1, none⟩
    ∧ compareDescriptions none none = ⟨true, 1, none⟩ := by
  with_unfolding_all decide

/-! ### Unbounded recursion of `parseSitemap` on cyclic sitemap indices -/

/-- C3 — the guard the claim describes does not exist in the source.
A sitemap index whose single `<loc>` is its own URL makes `parseSitemap`
recurse without bound: in the depth-budgeted model, *every* budget is
exhausted (no visited set skips the repeat, no depth cap stops at 4). -/
theorem parseSitemap_selfloop_diverges :
    ∀ fuel : Nat,
      parseSitemapModel (fun _ => SitemapDoc.index ["https://site.example/sitemap.xml"])
        fuel "https://site.example/sitemap.xml" = ParseOutcome.diverge := by
  intro fuel
  induction fuel with
  | zero => rfl
  | succ f ih => simp [parseSitemapModel, ih]

/-! ### Port-insensitivity of `normalizeUrl` -/

/-- C10 — Confirmed.  `normalizeUrl` rebuilds the URL from protocol,
host and path only, so the port never survives: two parseable URLs whose
parses agree on protocol, hostname and pathname — ports free to differ —
normalize identically. -/
theorem normalizeUrl_drops_port (u₁ u₂ : String) (r₁ r₂ : JsUrl)
    (h₁ : parseURLChars u₁.data = some r₁) (h₂ : parseURLChars u₂.data = some r₂)
    (hp : r₁.protocol = r₂.protocol) (hh : r₁.hostname = r₂.hostname)
    (hpath : r₁.pathname = r₂.pathname) :
    normalizeUrl u₁ = normalizeUrl u₂ := by
  simp only [normalizeUrl, h₁, h₂]
  rw [hp, hh, hpath]

/-- Witness for `normalizeUrl_drops_port`: the claim's own example —
`http://example.com:8080/a` and `http://example.com/a` normalize to the
same string, namely `http://example.com/a`. -/
theorem normalizeUrl_drops_port_witness :
    parseURLChars "http://example.com:8080/a".data
        = some ⟨"http:".data, "example.com".data, some 8080, "/a".data⟩
    ∧ parseURLChars "http://example.com/a".data
        = some ⟨"http:".data, "example.com".data, none, "/a".data⟩
    ∧ normalizeUrl "http://example.com:8080/a" = normalizeUrl "http://example.com/a"
    ∧ normalizeUrl "http://example.com:8080/a" = "http://example.com/a" :=
  ⟨by decide, by decide,
   normalizeUrl_drops_port "http://example.com:8080/a" "http://example.com/a"
     ⟨"http:".data, "example.com".data, some 8080, "/a".data⟩
     ⟨"http:".data, "example.com".data, none, "/a".data⟩
     (by decide) (by decide) rfl rfl rfl,
   by decide⟩

/-! ### Character-level lemmas for `Char.toLower` -/

theorem char_ofNat_toNat {n : ℕ} (h : n.isValidChar) : (Char.ofNat n).toNat = n := by
  unfold Char.ofNat
  rw [dif_pos h]
  unfold Char.ofNatAux
  rfl

theorem char_toLower_toNat (c : Char) :
    c.toLower.toNat = if 65 ≤ c.toNat ∧ c.toNat ≤ 90 then c.toNat + 32 else c.toNat := by
  unfold Char.toLower
  by_cases h : c.toNat ≥ 65 ∧ c.toNat ≤ 90
  · rw [if_pos h, if_pos ⟨h.1, h.2⟩]
    exact char_ofNat_toNat (Or.inl (by omega))
  · rw [if_neg h, if_neg h]

theorem char_toLower_fixed (c : Char) (h : ¬(65 ≤ c.toNat ∧ c.toNat ≤ 90)) :
    c.toLower = c := by
  unfold Char.toLower
  rw [if_neg h]

theorem char_toLower_idem (c : Char) : c.toLower.toLower = c.toLower := by
  apply char_toLower_fixed
  rw [char_toLower_toNat]
  split_ifs with h <;> omega

theorem map_toLower_idem (l : List Char) :
    (l.map Char.toLower).map Char.toLower = l.map Char.toLower := by
  rw [List.map_map]
  exact List.map_congr_left fun c _ => char_toLower_idem c

theorem isHostChar_toLower {c : Char} (h : isHostChar c = true) :
    isHostChar c.toLower = true := by
  by_cases hr : 65 ≤ c.toNat ∧ c.toNat ≤ 90
  · have ht := char_toLower_toNat c
    rw [if_pos hr] at ht
    simp only [isHostChar, Bool.or_eq_true, Bool.and_eq_true, decide_eq_true_eq, ht]
    omega
  · rw [char_toLower_fixed c hr]
    exact h

/-! ### List scanning lemmas -/

theorem takeWhile_append_all {p : Char → Bool} {l1 : List Char} (l2 : List Char)
    (h : ∀ c ∈ l1, p c = true) : (l1 ++ l2).takeWhile p = l1 ++ l2.takeWhile p := by
  induction l1 with
  | nil => simp
  | cons a l1 ih =>
    rw [List.cons_append, List.takeWhile_cons_of_pos (h a (List.mem_cons_self a l1)),
      ih fun c hc => h c (List.mem_cons_of_mem a hc), List.cons_append]

theorem dropWhile_append_all {p : Char → Bool} {l1 : List Char} (l2 : List Char)
    (h : ∀ c ∈ l1, p c = true) : (l1 ++ l2).dropWhile p = l2.dropWhile p := by
  induction l1 with
  | nil => simp
  | cons a l1 ih =>
    rw [List.cons_append, List.dropWhile_cons_of_pos (h a (List.mem_cons_self a l1)),
      ih fun c hc => h c (List.mem_cons_of_mem a hc)]

theorem takeWhile_all {p : Char → Bool} {l : List Char} (h : ∀ c ∈ l, p c = true) :
    l.takeWhile p = l := by
  induction l with
  | nil => rfl
  | cons a l ih =>
    rw [List.takeWhile_cons_of_pos (h a (List.mem_cons_self a l)),
      ih fun c hc => h c (List.mem_cons_of_mem a hc)]

theorem dropWhile_head_not {p : Char → Bool} (l : List Char) :
    ∀ c, (l.dropWhile p).head? = some c → p c = false := by
  induction l with
  | nil => intro c hc; cases hc
  | cons a l ih =>
    intro c hc
    by_cases ha : p a = true
    · rw [List.dropWhile_cons_of_pos ha] at hc
      exact ih c hc
    · rw [List.dropWhile_cons_of_neg ha] at hc
      cases hc
      exact Bool.eq_false_iff.mpr ha

theorem takeWhile_head {p : Char → Bool} {l : List Char} {c : Char}
    (h : (l.takeWhile p).head? = some c) : p c = true ∧ l.head? = some c := by
  cases l with
  | nil => cases h
  | cons a l =>
    by_cases ha : p a = true
    · rw [List.takeWhile_cons_of_pos ha] at h
      cases h
      exact ⟨ha, rfl⟩
    · rw [List.takeWhile_cons_of_neg ha] at h
      cases h

theorem mem_takeWhile_sat {p : Char → Bool} {l : List Char} {c : Char}
    (h : c ∈ l.takeWhile p) : p c = true ∧ c ∈ l := by
  induction l with
  | nil => cases h
  | cons a l ih =>
    by_cases ha : p a = true
    · rw [List.takeWhile_cons_of_pos ha] at h
      rcases List.mem_cons.mp h with rfl | h
      · exact ⟨ha, List.mem_cons_self _ _⟩
      · rcases ih h with ⟨h1, h2⟩
        exact ⟨h1, List.mem_cons_of_mem a h2⟩
    · rw [List.takeWhile_cons_of_neg ha] at h
      cases h

/-! ### Well-formedness of `parseURLChars` results -/

/-! ### Well-formedness of `parseURLChars` results -/

theorem parseHostPort_spec {hp : List Char} {h : List Char} {p : Option Nat}
    (hres : parseHostPort hp = some (h, p)) :
    h ≠ [] ∧ (∀ c ∈ h, isHostChar c = true) ∧ h.map Char.toLower = h := by
  simp only [parseHostPort] at hres
  split at hres
  · exact absurd hres (by simp)
  · split_ifs at hres with h1 h2
    rw [Option.some.injEq, Prod.mk.injEq] at hres
    obtain ⟨hh, -⟩ := hres
    subst hh
    refine ⟨?_, ?_, map_toLower_idem _⟩
    · intro hnil
      exact h1 (List.map_eq_nil_iff.mp hnil)
    · intro c hc
      rcases List.mem_map.mp hc with ⟨c0, hc0, rfl⟩
      exact isHostChar_toLower (List.all_eq_true.mp h2 c0 hc0)

/-- Invariants every successful `parseURLChars` result satisfies. -/
structure ParsedWF (r : JsUrl) : Prop where
  scheme_spec : ∃ s ∈ specialSchemes, r.protocol = s ++ [':']
  host_ne : r.hostname ≠ []
  host_chars : ∀ c ∈ r.hostname, isHostChar c = true
  host_lower : r.hostname.map Char.toLower = r.hostname
  path_ne : r.pathname ≠ []
  path_head : r.pathname.head? = some '/'
  path_chars : ∀ c ∈ r.pathname, c ≠ '?' ∧ c ≠ '#' ∧ c ≠ '\\'

theorem pathChars_facts {rest2 : List Char}
    (pc : List Char)
    (hpc : pc = (rest2.dropWhile (fun c => !isAuthorityEnd c)).takeWhile
      (fun c => decide (c ≠ '?') && decide (c ≠ '#')))
    (hne : pc ≠ []) :
    (pc.map (fun c => if c = '\\' then '/' else c)).head? = some '/'
    ∧ ∀ c ∈ pc.map (fun c => if c = '\\' then '/' else c), c ≠ '?' ∧ c ≠ '#' ∧ c ≠ '\\' := by
  constructor
  · rcases List.exists_cons_of_ne_nil hne with ⟨c0, tl, hc0⟩
    have hhead : pc.head? = some c0 := by rw [hc0]; rfl
    rw [hpc] at hhead
    obtain ⟨hpr, hrem⟩ := takeWhile_head hhead
    have hae := dropWhile_head_not _ _ hrem
    rw [Bool.not_eq_false'] at hae
    simp only [Bool.and_eq_true, decide_eq_true_eq] at hpr
    simp only [isAuthorityEnd, Bool.or_eq_true, decide_eq_true_eq] at hae
    have hc0v : c0 = '/' ∨ c0 = '\\' := by
      rcases hae with ((hv | hv) | hv) | hv
      · exact Or.inl hv
      · exact Or.inr hv
      · exact absurd hv hpr.1
      · exact absurd hv hpr.2
    rw [hc0, List.map_cons]
    rcases hc0v with rfl | rfl <;> simp
  · intro c hc
    rcases List.mem_map.mp hc with ⟨c1, hc1, rfl⟩
    rw [hpc] at hc1
    obtain ⟨hpr, -⟩ := mem_takeWhile_sat hc1
    simp only [Bool.and_eq_true, decide_eq_true_eq] at hpr
    by_cases hb : c1 = '\\'
    · rw [if_pos hb]
      refine ⟨by decide, by decide, by decide⟩
    · rw [if_neg hb]
      exact ⟨hpr.1, hpr.2, hb⟩

theorem parse_wf {cs : List Char} {r : JsUrl} (h : parseURLChars cs = some r) : ParsedWF r := by
  simp only [parseURLChars] at h
  split at h
  · exact absurd h (by simp)
  · split_ifs at h with hs hpc
    · -- pathChars empty: pathname = ['/']
      split at h
      · exact absurd h (by simp)
      · rename_i pair host port heq
        rw [Option.some.injEq] at h
        subst h
        obtain ⟨hne, hchars, hlower⟩ := parseHostPort_spec heq
        exact ⟨⟨_, hs, rfl⟩, hne, hchars, hlower, by simp, rfl,
          fun c hc => by
            rcases List.mem_singleton.mp hc with rfl
            exact ⟨by decide, by decide, by decide⟩⟩
    · -- pathChars non-empty: pathname = map backslash-to-slash pathChars
      split at h
      · exact absurd h (by simp)
      · rename_i pair host port heq
        rw [Option.some.injEq] at h
        subst h
        obtain ⟨hne, hchars, hlower⟩ := parseHostPort_spec heq
        obtain ⟨hhead, hchars2⟩ := pathChars_facts _ rfl hpc
        refine ⟨⟨_, hs, rfl⟩, hne, hchars, hlower, ?_, hhead, hchars2⟩
        intro hnil
        exact hpc (List.map_eq_nil_iff.mp hnil)

theorem dropWhile_all {p : Char → Bool} {l : List Char} (h : ∀ c ∈ l, p c = true) :
    l.dropWhile p = [] := by
  induction l with
  | nil => rfl
  | cons a l ih =>
    rw [List.dropWhile_cons_of_pos (h a (List.mem_cons_self a l))]
    exact ih fun c hc => h c (List.mem_cons_of_mem a hc)

theorem hostChar_not_special {c : Char} (h : isHostChar c = true) :
    c ≠ ':' ∧ c ≠ '@' ∧ (decide (c = '/') || decide (c = '\\')) = false
    ∧ (!isAuthorityEnd c) = true := by
  have hn : c.toNat ≠ 58 ∧ c.toNat ≠ 64 ∧ c.toNat ≠ 47 ∧ c.toNat ≠ 92 ∧ c.toNat ≠ 63
      ∧ c.toNat ≠ 35 := by
    simp only [isHostChar, Bool.or_eq_true, Bool.and_eq_true, decide_eq_true_eq] at h
    omega
  have e1 : c ≠ ':' := fun hc => hn.1 (by rw [hc]; rfl)
  have e2 : c ≠ '@' := fun hc => hn.2.1 (by rw [hc]; rfl)
  have e3 : c ≠ '/' := fun hc => hn.2.2.1 (by rw [hc]; rfl)
  have e4 : c ≠ '\\' := fun hc => hn.2.2.2.1 (by rw [hc]; rfl)
  have e5 : c ≠ '?' := fun hc => hn.2.2.2.2.1 (by rw [hc]; rfl)
  have e6 : c ≠ '#' := fun hc => hn.2.2.2.2.2 (by rw [hc]; rfl)
  exact ⟨e1, e2, by simp [e3, e4], by simp [isAuthorityEnd, e3, e4, e5, e6]⟩

theorem specialScheme_chars {s : List Char} (hs : s ∈ specialSchemes) :
    (∀ c ∈ s, c ≠ ':') ∧ s.map Char.toLower = s := by
  simp only [specialSchemes, List.mem_cons, List.not_mem_nil, or_false] at hs
  rcases hs with rfl | rfl | rfl | rfl | rfl <;> exact ⟨by decide, by decide⟩

theorem parse_reconstruct {scheme host : List Char} (ptl : List Char)
    (hs : scheme ∈ specialSchemes)
    (hh_ne : host ≠ []) (hh_chars : ∀ c ∈ host, isHostChar c = true)
    (hh_lower : host.map Char.toLower = host)
    (hp_chars : ∀ c ∈ ('/' :: ptl : List Char), c ≠ '?' ∧ c ≠ '#' ∧ c ≠ '\\') :
    parseURLChars (scheme ++ [':'] ++ ['/', '/'] ++ host ++ ('/' :: ptl))
      = some { protocol := scheme ++ [':'], hostname := host, port := none,
               pathname := '/' :: ptl } := by
  obtain ⟨hsne, hslower⟩ := specialScheme_chars hs
  have hsp : ∀ c ∈ scheme, (fun x => decide (x ≠ ':')) c = true := fun c hc => by
    simp [hsne c hc]
  have hassoc : scheme ++ [':'] ++ ['/', '/'] ++ host ++ ('/' :: ptl)
      = scheme ++ (':' :: (['/', '/'] ++ (host ++ ('/' :: ptl)))) := by
    simp [List.append_assoc]
  have htw : (scheme ++ [':'] ++ ['/', '/'] ++ host ++ ('/' :: ptl)).takeWhile
      (fun x => decide (x ≠ ':')) = scheme := by
    rw [hassoc, takeWhile_append_all _ hsp, List.takeWhile_cons_of_neg (by decide),
      List.append_nil]
  have hdw : (scheme ++ [':'] ++ ['/', '/'] ++ host ++ ('/' :: ptl)).dropWhile
      (fun x => decide (x ≠ ':')) = ':' :: (['/', '/'] ++ (host ++ ('/' :: ptl))) := by
    rw [hassoc, dropWhile_append_all _ hsp, List.dropWhile_cons_of_neg (by decide)]
  obtain ⟨h0, htl, hhost⟩ := List.exists_cons_of_ne_nil hh_ne
  have hh0 : isHostChar h0 = true := hh_chars h0 (hhost ▸ List.mem_cons_self h0 htl)
  have hslash : (['/', '/'] ++ (host ++ ('/' :: ptl))).dropWhile
      (fun c => decide (c = '/') || decide (c = '\\')) = host ++ ('/' :: ptl) := by
    rw [dropWhile_append_all _ (by decide), hhost, List.cons_append,
      List.dropWhile_cons_of_neg (by rw [(hostChar_not_special hh0).2.2.1]; decide),
      ← List.cons_append, ← hhost]
  have hpane : ∀ c ∈ host, (fun c => !isAuthorityEnd c) c = true := fun c hc =>
    (hostChar_not_special (hh_chars c hc)).2.2.2
  have hauth : (host ++ ('/' :: ptl)).takeWhile (fun c => !isAuthorityEnd c) = host := by
    rw [takeWhile_append_all _ hpane, List.takeWhile_cons_of_neg (by decide),
      List.append_nil]
  have hrem : (host ++ ('/' :: ptl)).dropWhile (fun c => !isAuthorityEnd c)
      = '/' :: ptl := by
    rw [dropWhile_append_all _ hpane, List.dropWhile_cons_of_neg (by decide)]
  have hdui : dropUserinfo host = host := by
    rw [dropUserinfo, if_neg]
    intro hat
    exact (hostChar_not_special (hh_chars '@' hat)).2.1 rfl
  have hphp : parseHostPort host = some (host, none) := by
    have t1 : host.takeWhile (fun x => decide (x ≠ ':')) = host :=
      takeWhile_all fun c hc => by simp [(hostChar_not_special (hh_chars c hc)).1]
    have t2 : host.dropWhile (fun x => decide (x ≠ ':')) = [] :=
      dropWhile_all fun c hc => by simp [(hostChar_not_special (hh_chars c hc)).1]
    simp only [parseHostPort, t1, t2]
    rw [if_neg hh_ne, if_pos (List.all_eq_true.mpr hh_chars), hh_lower]
  have hpc : ('/' :: ptl).takeWhile (fun c => decide (c ≠ '?') && decide (c ≠ '#'))
      = '/' :: ptl :=
    takeWhile_all fun c hc => by simp [(hp_chars c hc).1, (hp_chars c hc).2.1]
  have hmap : ('/' :: ptl).map (fun c => if c = '\\' then '/' else c) = '/' :: ptl := by
    have := List.map_congr_left (l := ('/' :: ptl))
      (f := fun c => if c = '\\' then '/' else c) (g := id)
      (fun c hc => if_neg (hp_chars c hc).2.2)
    rw [this, List.map_id]
  simp only [parseURLChars, htw, hdw, hslower, if_pos hs, hslash, hauth, hrem, hdui,
    hphp, hpc, hmap]
  rw [if_neg (by simp : ¬('/' :: ptl : List Char) = [])]

/-! ### Idempotence analysis of `normalizeUrl` -/

/-- Does a host name begin with the literal prefix `www.`? -/
def startsWithWww : List Char → Bool
  | 'w' :: 'w' :: 'w' :: '.' :: _ => true
  | _ => false

theorem jsStripWww_of_not_www {l : List Char} (h : startsWithWww l = false) :
    jsStripWww l = l := by
  unfold jsStripWww
  split
  · simp [startsWithWww] at h
  · rfl

theorem jsStripWww_cases (l : List Char) :
    jsStripWww l = l ∨ l = 'w' :: 'w' :: 'w' :: '.' :: jsStripWww l := by
  unfold jsStripWww
  split
  · exact Or.inr rfl
  · exact Or.inl rfl

theorem chars_strip {l : List Char} (hc : ∀ c ∈ l, isHostChar c = true) :
    ∀ c ∈ jsStripWww l, isHostChar c = true := by
  rcases jsStripWww_cases l with he | he
  · rw [he]
    exact hc
  · intro c hcm
    refine hc c ?_
    rw [he]
    exact List.mem_cons_of_mem _ (List.mem_cons_of_mem _ (List.mem_cons_of_mem _
      (List.mem_cons_of_mem _ hcm)))

theorem map_toLower_strip {l : List Char} (hl : l.map Char.toLower = l) :
    (jsStripWww l).map Char.toLower = jsStripWww l := by
  rcases jsStripWww_cases l with he | he
  · rw [he]
    exact hl
  · rw [he] at hl
    simp only [List.map_cons, List.cons.injEq] at hl
    exact hl.2.2.2.2

theorem trim_subset {p : List Char} : ∀ c ∈ jsTrimTrailingSlash p, c ∈ p := by
  unfold jsTrimTrailingSlash
  split_ifs with h
  · exact fun c hc => List.dropLast_subset p hc
  · exact fun c hc => hc

theorem trim_head {p : List Char} (hne : p ≠ []) (hh : p.head? = some '/') :
    (jsTrimTrailingSlash p).head? = some '/' ∧ jsTrimTrailingSlash p ≠ [] := by
  unfold jsTrimTrailingSlash
  split_ifs with h
  · simp only [Bool.and_eq_true, decide_eq_true_eq] at h
    rcases p with _ | ⟨p0, tl⟩
    · exact absurd rfl hne
    rcases tl with _ | ⟨t0, tl'⟩
    · simp at h
    · simp only [List.head?_cons, Option.some.injEq] at hh
      subst hh
      constructor
      · rw [show (('/' :: t0 :: tl' : List Char)).dropLast = '/' :: (t0 :: tl').dropLast
          from rfl]
        rfl
      · intro hcon
        rw [show (('/' :: t0 :: tl' : List Char)).dropLast = '/' :: (t0 :: tl').dropLast
          from rfl] at hcon
        cases hcon
  · exact ⟨hh, hne⟩

/-- Guard under which `normalizeUrl` is idempotent: the input fails to
parse, or after one `www.`-strip the host is non-empty and free of a
further `www.` prefix, and one trailing-slash trim of the path is
already a fixed point of the trim. -/
def normIdemGuard (url : String) : Bool :=
  match parseURLChars url.data with
  | none => true
  | some r =>
    decide (jsStripWww r.hostname ≠ []) && !startsWithWww (jsStripWww r.hostname)
      && decide (jsTrimTrailingSlash (jsTrimTrailingSlash r.pathname)
          = jsTrimTrailingSlash r.pathname)

/-- C9 — Corrected.  `normalizeUrl` is idempotent for unparseable
inputs and for parseable ones whose host, after one `www.`-strip, is
non-empty without a further `www.` prefix, and whose path, after one
trailing-slash trim, carries no further trailing slash.  Outside the
guard it is not idempotent (see the counterexample): the source strips
only one `www.` and only one trailing slash per call. -/
theorem normalizeUrl_idempotent_of (url : String) (hg : normIdemGuard url = true) :
    normalizeUrl (normalizeUrl url) = normalizeUrl url := by
  cases hp : parseURLChars url.data with
  | none => simp [normalizeUrl, hp]
  | some r =>
    rw [normIdemGuard, hp] at hg
    simp only [Bool.and_eq_true, decide_eq_true_eq, Bool.not_eq_true'] at hg
    obtain ⟨⟨hne, hwww⟩, htrim⟩ := hg
    have wf := parse_wf hp
    obtain ⟨php, pne⟩ := trim_head wf.path_ne wf.path_head
    obtain ⟨ptl, hptl⟩ : ∃ ptl, jsTrimTrailingSlash r.pathname = '/' :: ptl := by
      rcases hq : jsTrimTrailingSlash r.pathname with _ | ⟨c, tl⟩
      · exact absurd hq pne
      · rw [hq] at php
        simp only [List.head?_cons, Option.some.injEq] at php
        exact ⟨tl, by rw [php]⟩
    have hchars' : ∀ c ∈ jsStripWww r.hostname, isHostChar c = true :=
      chars_strip wf.host_chars
    have hlower' : (jsStripWww r.hostname).map Char.toLower = jsStripWww r.hostname :=
      map_toLower_strip wf.host_lower
    have hpchars' : ∀ c ∈ ('/' :: ptl : List Char), c ≠ '?' ∧ c ≠ '#' ∧ c ≠ '\\' := by
      intro c hc
      rw [← hptl] at hc
      exact wf.path_chars c (trim_subset c hc)
    obtain ⟨s, hsmem, hsproto⟩ := wf.scheme_spec
    have h1 : normalizeUrl url
        = String.mk (s ++ [':'] ++ ['/', '/'] ++ jsStripWww r.hostname ++ ('/' :: ptl)) := by
      simp only [normalizeUrl, hp, hsproto, hptl]
    have h2 : parseURLChars (s ++ [':'] ++ ['/', '/'] ++ jsStripWww r.hostname
          ++ ('/' :: ptl))
        = some { protocol := s ++ [':'], hostname := jsStripWww r.hostname, port := none,
                 pathname := '/' :: ptl } :=
      parse_reconstruct ptl hsmem hne hchars' hlower' hpchars'
    rw [h1]
    simp only [normalizeUrl, h2]
    rw [jsStripWww_of_not_www hwww, ← hptl, htrim, hptl]

/-- Witness for `normalizeUrl_idempotent_of` at a typical URL. -/
theorem normalizeUrl_idempotent_witness :
    normIdemGuard "http://www.example.com/a/" = true
    ∧ normalizeUrl (normalizeUrl "http://www.example.com/a/")
        = normalizeUrl "http://www.example.com/a/" :=
  ⟨by decide,
   normalizeUrl_idempotent_of "http://www.example.com/a/" (by decide)⟩

/-- C9's unconditional idempotence is false: a host beginning `www.www.`
loses one `www.` per normalization pass, so normalizing twice differs
from normalizing once. -/
theorem normalizeUrl_not_idempotent_counterexample :
    normalizeUrl "http://www.www.example.com/x" = "http://www.example.com/x"
    ∧ normalizeUrl (normalizeUrl "http://www.www.example.com/x")
        = "http://example.com/x"
    ∧ normalizeUrl (normalizeUrl "http://www.www.example.com/x")
        ≠ normalizeUrl "http://www.www.example.com/x" := by
  refine ⟨by decide, by decide, ?_⟩
  decide
